import Mathlib

/-!
# Online coverage estimation (`drone_coverage/src/online_coverage.cpp`)

A shallow embedding of `drone_coverage::OnlineCoverage`.

Numeric model.  Every `float`/`double` of the program that holds a finite value
is a rational number and `+`, `*`, `<`, `<=` on finite values are exact; rounding
is not modelled.  The one place where the program leaves the finite values, the
division in `publishPercentage`, is modelled with the IEEE-754 special values
(`FloatVal`).  Comparisons of Euclidean lengths (`norm`, `distanceXY`) are made on
the squares, which is exact.

Octree model.  An `octomap` tree is represented by its leaves at the finest
depth (16), one entry per voxel key, together with the resolution; this is the
shape the environment tree has after `expand()`.  The merging of eight equal
children into their parent, by which `octomap` saves storage, is not
represented.  A node carries the log-odds occupancy value of `octomap`, updated by
`prob_hit_log` or `prob_miss_log` and clamped; the occupancy parameters are the
ones every tree of this program carries, those set by the `octomap`
constructors.

Library.  The routines of `octomap`/`octomath` that need square roots,
trigonometry or a voxel traversal (`castRay`, `computeRayKeys`, `rotate_IP`,
`toEuler`) and the macro `DEGREE` of the header are parameters, collected in
`Library`, and the general theorems hold for every `Library`.  The instance
`exactLibrary` carries the traversals out in exact arithmetic; the examples are
evaluated with it.
-/

namespace DroneCoverage

/-! ## Numbers, points and keys -/

/-- Outcome of a floating-point computation: a finite value or one of the
IEEE-754 special values. -/
inductive FloatVal where
  | finite (q : ℚ)
  | posInf
  | negInf
  | nan
deriving DecidableEq

/-- IEEE-754 division of two finite values: `0/0` is NaN, `x/0` is an infinity
carrying the sign of `x`. -/
def FloatVal.div (a b : ℚ) : FloatVal :=
  if b = 0 then
    if a = 0 then FloatVal.nan
    else if 0 < a then FloatVal.posInf else FloatVal.negInf
  else FloatVal.finite (a / b)

/-- IEEE-754 product of the positive constant `100` with a value. -/
def FloatVal.mul100 : FloatVal → FloatVal
  | FloatVal.finite q => FloatVal.finite (100 * q)
  | FloatVal.posInf => FloatVal.posInf
  | FloatVal.negInf => FloatVal.negInf
  | FloatVal.nan => FloatVal.nan

/-- Point of 3-D space, `octomap::point3d`. -/
structure Vec3 where
  x : ℚ
  y : ℚ
  z : ℚ
deriving DecidableEq

/-- Orientation of a pose, `octomath::Quaternion(w, x, y, z)`. -/
structure Quaternion where
  u : ℚ
  x : ℚ
  y : ℚ
  z : ℚ
deriving DecidableEq

/-- Pose message, `geometry_msgs::Pose`. -/
structure Pose where
  position : Vec3
  orientation : Quaternion
deriving DecidableEq

/-- Squared length of `b - a`; `(b - a).norm() > r` is `r < 0` or
`normSq a b > r * r`. -/
def normSq (a b : Vec3) : ℚ :=
  (b.x - a.x) * (b.x - a.x) + (b.y - a.y) * (b.y - a.y) + (b.z - a.z) * (b.z - a.z)

/-- Squared planar length, the square of `a.distanceXY(b)`. -/
def distanceXYSq (a b : Vec3) : ℚ :=
  (b.x - a.x) * (b.x - a.x) + (b.y - a.y) * (b.y - a.y)

/-- The test `a.distanceXY(b) > r`. -/
def distanceXYExceeds (a b : Vec3) (r : ℚ) : Prop :=
  r < 0 ∨ r * r < distanceXYSq a b

instance (a b : Vec3) (r : ℚ) : Decidable (distanceXYExceeds a b r) := by
  unfold distanceXYExceeds; infer_instance

/-- The test `(b - a).norm() > r`. -/
def normExceeds (a b : Vec3) (r : ℚ) : Prop :=
  r < 0 ∨ r * r < normSq a b

instance (a b : Vec3) (r : ℚ) : Decidable (normExceeds a b r) := by
  unfold normExceeds; infer_instance

/-- Half of the key range, `tree_max_val` of a tree of depth 16. -/
def tree_max_val : Nat := 32768

/-- Voxel key, `octomap::OcTreeKey`: three `uint16_t` components. -/
structure OcTreeKey where
  k0 : Nat
  k1 : Nat
  k2 : Nat
deriving DecidableEq

/-- The statement `key[i] += d` on `uint16_t` components. -/
def OcTreeKey.addAt (key : OcTreeKey) (i : Nat) (d : Nat) : OcTreeKey :=
  match i with
  | 0 => { key with k0 := (key.k0 + d) % 65536 }
  | 1 => { key with k1 := (key.k1 + d) % 65536 }
  | _ => { key with k2 := (key.k2 + d) % 65536 }

/-- Centre coordinate of a key component, `keyToCoord(key_type)`. -/
def keyToCoord (resolution : ℚ) (k : Nat) : ℚ :=
  (((k : ℤ) - (tree_max_val : ℤ) : ℤ) + 1 / 2) * resolution

/-- Centre of a voxel, `keyToCoord(OcTreeKey)`. -/
def keyToPoint (resolution : ℚ) (key : OcTreeKey) : Vec3 :=
  ⟨keyToCoord resolution key.k0, keyToCoord resolution key.k1, keyToCoord resolution key.k2⟩

/-- One component of `coordToKeyChecked`: the key of a coordinate, when it is
inside the key range. -/
def coordToKeyChecked1 (resolution : ℚ) (c : ℚ) : Option Nat :=
  let scaled : ℤ := ⌊(1 / resolution) * c⌋ + (tree_max_val : ℤ)
  if 0 ≤ scaled ∧ scaled < 2 * (tree_max_val : ℤ) then some scaled.toNat else none

/-- Key of the voxel containing a point, `coordToKeyChecked(point3d, key)`. -/
def coordToKeyChecked (resolution : ℚ) (p : Vec3) : Option OcTreeKey :=
  match coordToKeyChecked1 resolution p.x, coordToKeyChecked1 resolution p.y,
      coordToKeyChecked1 resolution p.z with
  | some a, some b, some c => some ⟨a, b, c⟩
  | _, _, _ => none

/-! ## Octree -/

/-- Colour tag of a node, `ColorOcTreeNode::Color`. -/
structure Color where
  r : Nat
  g : Nat
  b : Nat
deriving DecidableEq

/-- Leaf node: log-odds occupancy value and colour. -/
structure OcTreeNode where
  value : ℚ
  color : Color
deriving DecidableEq

/-- Tree given by its resolution and its finest-depth leaves. -/
structure OcTree where
  resolution : ℚ
  leaves : List (OcTreeKey × OcTreeNode)
deriving DecidableEq

/-- Log-odds added for a hit, `prob_hit_log` (probability 0.7). -/
def prob_hit_log : ℚ := 847298 / 1000000

/-- Log-odds added for a miss, `prob_miss_log` (probability 0.4). -/
def prob_miss_log : ℚ := -405465 / 1000000

/-- Lower clamping bound, `clamping_thres_min` (probability 0.1192). -/
def clamping_thres_min : ℚ := -2

/-- Upper clamping bound, `clamping_thres_max` (probability 0.971). -/
def clamping_thres_max : ℚ := 3511 / 1000

/-- Occupancy threshold, `occ_prob_thres_log` (probability 0.5). -/
def occ_prob_thres_log : ℚ := 0

/-- Colour of a freshly created `ColorOcTreeNode`. -/
def defaultColor : Color := ⟨255, 255, 255⟩

/-- Lookup of a key among leaves. -/
def searchLeaves : List (OcTreeKey × OcTreeNode) → OcTreeKey → Option OcTreeNode
  | [], _ => none
  | (k, n) :: rest, key => if k = key then some n else searchLeaves rest key

/-- Node lookup by key, `search(OcTreeKey)`. -/
def OcTree.search (t : OcTree) (key : OcTreeKey) : Option OcTreeNode :=
  searchLeaves t.leaves key

/-- Occupancy test, `isNodeOccupied`. -/
def isNodeOccupied (n : OcTreeNode) : Prop := occ_prob_thres_log ≤ n.value

instance (n : OcTreeNode) : Decidable (isNodeOccupied n) := by
  unfold isNodeOccupied; infer_instance

/-- Clamped log-odds update of a stored value, `updateNodeLogOdds`. -/
def updateNodeLogOdds (v : ℚ) (update : ℚ) : ℚ :=
  if v + update < clamping_thres_min then clamping_thres_min
  else if clamping_thres_max < v + update then clamping_thres_max
  else v + update

/-- Update of the leaf of `key` among leaves; a missing leaf is created with
value `0` and the default colour, then updated. -/
def updateLeaves : List (OcTreeKey × OcTreeNode) → OcTreeKey → ℚ →
    List (OcTreeKey × OcTreeNode)
  | [], key, update => [(key, ⟨updateNodeLogOdds 0 update, defaultColor⟩)]
  | (k, n) :: rest, key, update =>
    if k = key then (k, { n with value := updateNodeLogOdds n.value update }) :: rest
    else (k, n) :: updateLeaves rest key update

/-- Occupancy update by key, `updateNode(OcTreeKey, bool occupied)`, with its
early return when the leaf already sits at the clamping bound. -/
def OcTree.updateNode (t : OcTree) (key : OcTreeKey) (occupied : Bool) : OcTree :=
  let logOdds := if occupied then prob_hit_log else prob_miss_log
  match t.search key with
  | some leaf =>
    if (0 ≤ logOdds ∧ clamping_thres_max ≤ leaf.value)
        ∨ (logOdds ≤ 0 ∧ leaf.value ≤ clamping_thres_min) then t
    else { t with leaves := updateLeaves t.leaves key logOdds }
  | none => { t with leaves := updateLeaves t.leaves key logOdds }

/-- Occupancy update by point, `updateNode(point3d, bool occupied)`: nothing
happens outside the key range. -/
def OcTree.updateNodePoint (t : OcTree) (p : Vec3) (occupied : Bool) : OcTree :=
  match coordToKeyChecked t.resolution p with
  | some key => t.updateNode key occupied
  | none => t

/-- Recolouring of the leaf of `key` among leaves. -/
def setColorLeaves : List (OcTreeKey × OcTreeNode) → OcTreeKey → Color →
    List (OcTreeKey × OcTreeNode)
  | [], _, _ => []
  | (k, n) :: rest, key, c =>
    if k = key then (k, { n with color := c }) :: rest
    else (k, n) :: setColorLeaves rest key c

/-- The statements `node = search(p); if (node != NULL) node->setColor(c)`. -/
def OcTree.setColorAt (t : OcTree) (p : Vec3) (c : Color) : OcTree :=
  match coordToKeyChecked t.resolution p with
  | some key => { t with leaves := setColorLeaves t.leaves key c }
  | none => t

/-- The call `expand()`: the leaves of the representation are already the
finest-depth leaves. -/
def OcTree.expand (t : OcTree) : OcTree := t

/-- Fresh tree, `new octomap::ColorOcTree(resolution)`. -/
def OcTree.empty (resolution : ℚ) : OcTree := ⟨resolution, []⟩

/-! ## Configuration and volume estimation -/

/-- Parameters read by the constructor of `OnlineCoverage`. -/
structure Config where
  _min_obstacle_height : ℚ
  _max_obstacle_height : ℚ
  _rfid_range : ℚ
  _rfid_hfov : ℚ
  _rfid_vfov : ℚ
  _sensor_shape : String
  _rfid_direction_x : ℚ
  _rfid_direction_y : ℚ
  _rfid_direction_z : ℚ
deriving DecidableEq

/-- The test `z < _min_obstacle_height || z > _max_obstacle_height`. -/
def outOfBand (cfg : Config) (z : ℚ) : Prop :=
  z < cfg._min_obstacle_height ∨ cfg._max_obstacle_height < z

instance (cfg : Config) (z : ℚ) : Decidable (outOfBand cfg z) := by
  unfold outOfBand; infer_instance

/-- Body of the neighbour loop of the plain volume for one axis `i`: the first
neighbour is an occupied node and the second neighbour is `NULL`. -/
def neighborNoise (t : OcTree) (key : OcTreeKey) (i : Nat) : Bool :=
  match t.search (key.addAt i 1) with
  | some first_node =>
    if isNodeOccupied first_node then
      match t.search (key.addAt i 2) with
      | none => true
      | some _ => false
    else false
  | none => false

/-- The loop `for (int i = 0; i <= 1; i++)` with its `break`: the value of
`exclude` after the loop. -/
def excludeLoop (t : OcTree) (key : OcTreeKey) : List Nat → Bool
  | [] => false
  | i :: rest => if neighborNoise t key i then true else excludeLoop t key rest

/-- Value of `exclude` for a leaf. -/
def exclude (t : OcTree) (key : OcTreeKey) : Bool := excludeLoop t key [0, 1]

/-- Amount added to `vol_occ` by one leaf in
`calculateOccupiedVolume(octomap::OcTree*)`. -/
def leafVolumeOcTree (cfg : Config) (t : OcTree) (leaf : OcTreeKey × OcTreeNode) : ℚ :=
  if outOfBand cfg (keyToCoord t.resolution leaf.1.k2) then 0
  else if isNodeOccupied leaf.2 then
    if exclude t leaf.1 then 0 else t.resolution * t.resolution * t.resolution
  else 0

/-- Amount added to `vol_occ` by one leaf in
`calculateOccupiedVolume(octomap::ColorOcTree*)`. -/
def leafVolumeColorOcTree (cfg : Config) (t : OcTree) (leaf : OcTreeKey × OcTreeNode) : ℚ :=
  if outOfBand cfg (keyToCoord t.resolution leaf.1.k2) then 0
  else if isNodeOccupied leaf.2 then t.resolution * t.resolution * t.resolution
  else 0

/-- Plain variant, `calculateOccupiedVolume(octomap::OcTree*)`; the bounding box
of the iteration is the metric extent of the tree, so every leaf is visited. -/
def calculateOccupiedVolumeOcTree (cfg : Config) (t : OcTree) : ℚ :=
  t.leaves.foldl (fun vol_occ leaf => vol_occ + leafVolumeOcTree cfg t leaf) 0

/-- Coverage variant, `calculateOccupiedVolume(octomap::ColorOcTree*)`. -/
def calculateOccupiedVolumeColorOcTree (cfg : Config) (t : OcTree) : ℚ :=
  t.leaves.foldl (fun vol_occ leaf => vol_occ + leafVolumeColorOcTree cfg t leaf) 0

/-- The plain tally with the contribution of every leaf of key `a` left out. -/
def tallyWithout (cfg : Config) (t : OcTree) (a : OcTreeKey) : ℚ :=
  ((t.leaves.filter (fun leaf => decide (leaf.1 ≠ a))).map (leafVolumeOcTree cfg t)).sum

/-! ## Library routines and coverage accumulation -/

/-- Routines and constants the program takes from outside this file: the macro
`DEGREE` of the header (one degree in radians) and the routines of `octomath`
and `octomap` that rest on trigonometry, square roots or voxel traversal.
`yaw q` is `q.toEuler().yaw()`; `rotate_IP v roll pitch yaw` is the value of `v`
after `v.rotate_IP(roll, pitch, yaw)`; `castRay t origin direction maxRange` is
`castRay(origin, direction, end, true, maxRange)`, giving `end` when it returns
`true`; `computeRayKeys resolution origin end` gives the keys traversed, `end`
excluded, or `none` when it returns `false`; `cutRay origin end maxrange` is
`origin + (end - origin).normalized() * maxrange`. -/
structure Library where
  DEGREE : ℚ
  DEGREE_pos : 0 < DEGREE
  yaw : Quaternion → ℚ
  rotate_IP : Vec3 → ℚ → ℚ → ℚ → Vec3
  castRay : OcTree → Vec3 → Vec3 → ℚ → Option Vec3
  computeRayKeys : ℚ → Vec3 → Vec3 → Option (List OcTreeKey)
  cutRay : Vec3 → Vec3 → ℚ → Vec3

/-- Free-space update along a ray, `integrateMissOnRay`. -/
def integrateMissOnRay (L : Library) (t : OcTree) (origin end_ : Vec3) : OcTree × Bool :=
  match L.computeRayKeys t.resolution origin end_ with
  | none => (t, false)
  | some ray => (ray.foldl (fun tree key => tree.updateNode key false) t, true)

/-- Ray insertion, `insertRay(origin, end, maxrange)`. -/
def insertRay (L : Library) (t : OcTree) (origin end_ : Vec3) (maxrange : ℚ) : OcTree × Bool :=
  if 0 < maxrange ∧ normExceeds origin end_ maxrange then
    integrateMissOnRay L t origin (L.cutRay origin end_ maxrange)
  else
    match integrateMissOnRay L t origin end_ with
    | (t1, false) => (t1, false)
    | (t1, true) => (t1.updateNodePoint end_ true, true)

/-- Colour written by `setColor(0.5, 0.5, 0.5)`: the arguments are `uint8_t`. -/
def orthogonalColor : Color := ⟨0, 0, 0⟩

/-- Colour written by `setColor(1, 0, 0)`. -/
def circularColor : Color := ⟨1, 0, 0⟩

/-- The base facing direction of the sensor. -/
def Config.direction (cfg : Config) : Vec3 :=
  ⟨cfg._rfid_direction_x, cfg._rfid_direction_y, cfg._rfid_direction_z⟩

/-- Body of the inner loop of `calculateOrthogonalCoverage`. -/
def orthogonalBody (L : Library) (cfg : Config) (octomap : OcTree) (position : Vec3)
    (covered : OcTree) (horizontal vertical : ℚ) : OcTree :=
  match L.castRay octomap position (L.rotate_IP cfg.direction 0 vertical horizontal)
      cfg._rfid_range with
  | some wall_point =>
    if outOfBand cfg wall_point.z then covered
    else
      match insertRay L covered position wall_point cfg._rfid_range with
      | (covered1, true) => covered1.setColorAt wall_point orthogonalColor
      | (covered1, false) => covered1
  | none => covered

/-- Body of the inner loop of `calculateCircularCoverage`. -/
def circularBody (L : Library) (cfg : Config) (octomap : OcTree) (position : Vec3)
    (covered : OcTree) (horizontal vertical : ℚ) : OcTree :=
  match L.castRay octomap position (L.rotate_IP cfg.direction 0 vertical horizontal)
      cfg._rfid_range with
  | some wall_point =>
    if outOfBand cfg wall_point.z then covered
    else if distanceXYExceeds position wall_point cfg._rfid_range then covered
    else
      match insertRay L covered position wall_point cfg._rfid_range with
      | (covered1, true) => covered1.setColorAt wall_point circularColor
      | (covered1, false) => covered1
  | none => covered

/-- Values taken by the variable of `for (a = lo; a <= hi; a += step)`, for a
positive `step`. -/
def angleRange (lo hi step : ℚ) : List ℚ :=
  if lo ≤ hi then
    (List.range (⌊(hi - lo) / step⌋.toNat + 1)).map (fun k => lo + (k : ℚ) * step)
  else []

/-- The pairs `(horizontal, vertical)` visited by the two nested loops. -/
def samples (L : Library) (cfg : Config) (pose : Pose) : List (ℚ × ℚ) :=
  (angleRange (L.yaw pose.orientation - cfg._rfid_hfov / 2)
      (L.yaw pose.orientation + cfg._rfid_hfov / 2) L.DEGREE).flatMap
    (fun horizontal =>
      (angleRange (-cfg._rfid_vfov / 2) (cfg._rfid_vfov / 2) L.DEGREE).map
        (fun vertical => (horizontal, vertical)))

/-- The method `calculateOrthogonalCoverage`, started on the coverage tree
`covered`. -/
def calculateOrthogonalCoverage (L : Library) (cfg : Config) (octomap covered : OcTree)
    (pose : Pose) : OcTree :=
  let position := pose.position
  let yaw := L.yaw pose.orientation
  (angleRange (yaw - cfg._rfid_hfov / 2) (yaw + cfg._rfid_hfov / 2) L.DEGREE).foldl
    (fun cov horizontal =>
      (angleRange (-cfg._rfid_vfov / 2) (cfg._rfid_vfov / 2) L.DEGREE).foldl
        (fun cov1 vertical => orthogonalBody L cfg octomap position cov1 horizontal vertical)
        cov)
    covered

/-- The method `calculateCircularCoverage`, started on the coverage tree
`covered`. -/
def calculateCircularCoverage (L : Library) (cfg : Config) (octomap covered : OcTree)
    (pose : Pose) : OcTree :=
  let position := pose.position
  let yaw := L.yaw pose.orientation
  (angleRange (yaw - cfg._rfid_hfov / 2) (yaw + cfg._rfid_hfov / 2) L.DEGREE).foldl
    (fun cov horizontal =>
      (angleRange (-cfg._rfid_vfov / 2) (cfg._rfid_vfov / 2) L.DEGREE).foldl
        (fun cov1 vertical => circularBody L cfg octomap position cov1 horizontal vertical)
        cov)
    covered

/-! ## The node state and its callbacks -/

/-- Result of `octomap_msgs::msgToMap` behind the `AbstractOcTree*`: a
`ColorOcTree`, or a tree of another registered type. -/
inductive AbstractOcTree where
  | colorOcTree (t : OcTree)
  | otherTree (treeType : String) (t : OcTree)
deriving DecidableEq

/-- The cast `dynamic_cast<octomap::ColorOcTree*>(abstract)`. -/
def AbstractOcTree.dynamicCastColor : AbstractOcTree → Option OcTree
  | AbstractOcTree.colorOcTree t => some t
  | AbstractOcTree.otherTree _ _ => none

/-- Member variables of `OnlineCoverage`; a pointer is `none` when `NULL`. -/
structure OnlineCoverage where
  cfg : Config
  _octomap : Option OcTree
  _covered : Option OcTree
  _octomap_resolution : ℚ
  _octomap_volume : ℚ
  _octomap_loaded : Bool
deriving DecidableEq

/-- The method `octomapCallback`; `abstract` is the result of `msgToMap(*msg)`. -/
def octomapCallback (s : OnlineCoverage) (abstract : Option AbstractOcTree) : OnlineCoverage :=
  match abstract with
  | some a =>
    let s1 := { s with _octomap := a.dynamicCastColor }
    match s1._octomap with
    | none => s1
    | some t =>
      let s2 := { s1 with _octomap := some t.expand }
      let s3 := { s2 with _octomap_resolution := t.expand.resolution }
      let s4 := { s3 with _octomap_volume := calculateOccupiedVolumeOcTree s3.cfg t.expand }
      let s5 := { s4 with _covered := some (OcTree.empty s4._octomap_resolution) }
      { s5 with _octomap_loaded := true }
  | none => s

/-- The two values published by `publishPercentage`: the covered volume and
the covered percentage. -/
def publishPercentage (s : OnlineCoverage) (covered : OcTree) : ℚ × FloatVal :=
  let covered_volume := calculateOccupiedVolumeColorOcTree s.cfg covered
  (covered_volume, FloatVal.mul100 (FloatVal.div covered_volume s._octomap_volume))

/-- Messages published by one `poseCallback`. -/
structure Published where
  covered : OcTree
  volume : ℚ
  percentage : FloatVal
deriving DecidableEq

/-- The method `poseCallback`.  The result is `none` when the method
dereferences a `NULL` tree pointer: `_octomap` in the first pass through a loop
body, `_covered` in `publishCoveredSurface` at the latest.  Otherwise it is the
new state and what was published, if anything. -/
def poseCallback (L : Library) (s : OnlineCoverage) (pose : Pose) :
    Option (OnlineCoverage × Option Published) :=
  if s._octomap_loaded = false then some (s, none)
  else
    match s._covered with
    | none => none
    | some covered =>
      match s._octomap with
      | some octomap =>
        let covered1 :=
          if s.cfg._sensor_shape = "circular" then
            calculateCircularCoverage L s.cfg octomap covered pose
          else calculateOrthogonalCoverage L s.cfg octomap covered pose
        let s1 := { s with _covered := some covered1 }
        let report := publishPercentage s1 covered1
        some (s1, some ⟨covered1, report.1, report.2⟩)
      | none =>
        if samples L s.cfg pose = [] then
          let report := publishPercentage s covered
          some (s, some ⟨covered, report.1, report.2⟩)
        else none

/-- A sequence of pose messages handled one after the other. -/
def poseCallbacks (L : Library) (s : OnlineCoverage) : List Pose → Option OnlineCoverage
  | [] => some s
  | pose :: rest =>
    match poseCallback L s pose with
    | some (s1, _) => poseCallbacks L s1 rest
    | none => none

/-- State after the constructor of `OnlineCoverage`. -/
def OnlineCoverage.init (cfg : Config) : OnlineCoverage :=
  ⟨cfg, none, none, 0, 0, false⟩

/-! ## Node updates performed by a pose update

The coverage accumulation changes the coverage tree only through
`updateNode(key, occupied)` and `setColor`.  The lists below name these updates,
in the order in which the methods perform them; they depend on the coverage tree
through its resolution only.  The theorems `insertRay_eq_applyOps`,
`orthogonalBody_eq_applyOps`, `circularBody_eq_applyOps` and
`calculateCoverage_eq_applyOps` state that the methods do apply them. -/

/-- One change of the coverage tree. -/
inductive Op where
  | update (key : OcTreeKey) (occupied : Bool)
  | color (key : OcTreeKey) (c : Color)
deriving DecidableEq

/-- Effect of one change. -/
def OcTree.applyOp (t : OcTree) : Op → OcTree
  | Op.update key occupied => t.updateNode key occupied
  | Op.color key c => { t with leaves := setColorLeaves t.leaves key c }

/-- Effect of a list of changes, applied from the left. -/
def OcTree.applyOps (t : OcTree) (ops : List Op) : OcTree := ops.foldl OcTree.applyOp t

/-- Updates of `integrateMissOnRay`, and its return value. -/
def missOps (L : Library) (resolution : ℚ) (origin end_ : Vec3) : List Op × Bool :=
  match L.computeRayKeys resolution origin end_ with
  | none => ([], false)
  | some ray => (ray.map (fun key => Op.update key false), true)

/-- Update of `updateNode(end, true)`. -/
def hitOps (resolution : ℚ) (p : Vec3) : List Op :=
  match coordToKeyChecked resolution p with
  | some key => [Op.update key true]
  | none => []

/-- Change made by `search(p)` followed by `setColor`. -/
def colorOps (resolution : ℚ) (p : Vec3) (c : Color) : List Op :=
  match coordToKeyChecked resolution p with
  | some key => [Op.color key c]
  | none => []

/-- Updates of `insertRay`, and its return value. -/
def insertRayOps (L : Library) (resolution : ℚ) (origin end_ : Vec3) (maxrange : ℚ) :
    List Op × Bool :=
  if 0 < maxrange ∧ normExceeds origin end_ maxrange then
    missOps L resolution origin (L.cutRay origin end_ maxrange)
  else
    match missOps L resolution origin end_ with
    | (ops, false) => (ops, false)
    | (ops, true) => (ops ++ hitOps resolution end_, true)

/-- Changes made by one pass through the inner loop body of
`calculateOrthogonalCoverage`. -/
def orthogonalBodyOps (L : Library) (cfg : Config) (octomap : OcTree) (resolution : ℚ)
    (position : Vec3) (horizontal vertical : ℚ) : List Op :=
  match L.castRay octomap position (L.rotate_IP cfg.direction 0 vertical horizontal)
      cfg._rfid_range with
  | some wall_point =>
    if outOfBand cfg wall_point.z then []
    else
      match insertRayOps L resolution position wall_point cfg._rfid_range with
      | (ops, true) => ops ++ colorOps resolution wall_point orthogonalColor
      | (ops, false) => ops
  | none => []

/-- Changes made by one pass through the inner loop body of
`calculateCircularCoverage`. -/
def circularBodyOps (L : Library) (cfg : Config) (octomap : OcTree) (resolution : ℚ)
    (position : Vec3) (horizontal vertical : ℚ) : List Op :=
  match L.castRay octomap position (L.rotate_IP cfg.direction 0 vertical horizontal)
      cfg._rfid_range with
  | some wall_point =>
    if outOfBand cfg wall_point.z then []
    else if distanceXYExceeds position wall_point cfg._rfid_range then []
    else
      match insertRayOps L resolution position wall_point cfg._rfid_range with
      | (ops, true) => ops ++ colorOps resolution wall_point circularColor
      | (ops, false) => ops
  | none => []

/-- Changes made by `calculateOrthogonalCoverage`. -/
def orthogonalOps (L : Library) (cfg : Config) (octomap : OcTree) (resolution : ℚ)
    (pose : Pose) : List Op :=
  (samples L cfg pose).flatMap
    (fun hv => orthogonalBodyOps L cfg octomap resolution pose.position hv.1 hv.2)

/-- Changes made by `calculateCircularCoverage`. -/
def circularOps (L : Library) (cfg : Config) (octomap : OcTree) (resolution : ℚ)
    (pose : Pose) : List Op :=
  (samples L cfg pose).flatMap
    (fun hv => circularBodyOps L cfg octomap resolution pose.position hv.1 hv.2)

/-- Changes made to the coverage tree by one `poseCallback`. -/
def poseOps (L : Library) (cfg : Config) (octomap : OcTree) (resolution : ℚ)
    (pose : Pose) : List Op :=
  if cfg._sensor_shape = "circular" then circularOps L cfg octomap resolution pose
  else orthogonalOps L cfg octomap resolution pose

/-- The change with the colour written by the circular shape in place of the
colour written. -/
def Op.recolorCircular : Op → Op
  | Op.update key occupied => Op.update key occupied
  | Op.color key _ => Op.color key circularColor

/-- The tree with every colour reset to the default one. -/
def OcTree.eraseColors (t : OcTree) : OcTree :=
  { t with leaves := t.leaves.map (fun leaf => (leaf.1, { leaf.2 with color := defaultColor })) }

/-- Stored log-odds of a voxel; an absent voxel counts as `0`, the value a
node is created with. -/
def OcTree.valueAt (t : OcTree) (key : OcTreeKey) : ℚ :=
  match t.search key with
  | some n => n.value
  | none => 0

/-- Log-odds of a voxel after `updateNode(key, occupied)` on that voxel, as a
function of the log-odds before. -/
def stepValue (occupied : Bool) (v : ℚ) : ℚ :=
  if (0 ≤ (if occupied then prob_hit_log else prob_miss_log) ∧ clamping_thres_max ≤ v)
      ∨ ((if occupied then prob_hit_log else prob_miss_log) ≤ 0 ∧ v ≤ clamping_thres_min) then v
  else updateNodeLogOdds v (if occupied then prob_hit_log else prob_miss_log)

/-- Log-odds of the voxel `key` after one change, as a function of the
log-odds before. -/
def Op.valueStep (op : Op) (key : OcTreeKey) (v : ℚ) : ℚ :=
  match op with
  | Op.update key1 occupied => if key1 = key then stepValue occupied v else v
  | Op.color _ _ => v

/-- Log-odds of the voxel `key` after a list of changes. -/
def valueSteps (ops : List Op) (key : OcTreeKey) (v : ℚ) : ℚ :=
  ops.foldl (fun w op => op.valueStep key w) v

/-- Whether a change is an occupancy update of the voxel `key`. -/
def Op.updates (op : Op) (key : OcTreeKey) : Bool :=
  match op with
  | Op.update key1 _ => decide (key1 = key)
  | Op.color _ _ => false

/-- The voxel `key` is stored and occupied. -/
def OcTree.isOccupiedAt (t : OcTree) (key : OcTreeKey) : Prop :=
  match t.search key with
  | some n => isNodeOccupied n
  | none => False

instance (t : OcTree) (key : OcTreeKey) : Decidable (t.isOccupiedAt key) := by
  unfold OcTree.isOccupiedAt
  cases t.search key <;> infer_instance

/-- Keys of the leaves, in storage order. -/
def OcTree.keys (t : OcTree) : List OcTreeKey := t.leaves.map Prod.fst

/-- The components of a key fit `uint16_t`. -/
def OcTreeKey.valid (key : OcTreeKey) : Prop :=
  key.k0 < 65536 ∧ key.k1 < 65536 ∧ key.k2 < 65536

instance (key : OcTreeKey) : Decidable key.valid := by
  unfold OcTreeKey.valid; infer_instance

/-- Contract of `castRay` on a tree: a reported hit is the centre of an
occupied voxel of the tree. -/
def Library.CastHitsOccupied (L : Library) (octomap : OcTree) : Prop :=
  ∀ (origin direction : Vec3) (maxRange : ℚ) (p : Vec3),
    L.castRay octomap origin direction maxRange = some p →
      ∃ key : OcTreeKey, key.valid ∧ octomap.isOccupiedAt key
        ∧ p = keyToPoint octomap.resolution key

/-- Contract of `castRay` for a sensor position and range: a reported hit is
within the range of the position. -/
def Library.CastWithinRange (L : Library) (octomap : OcTree) (position : Vec3)
    (range : ℚ) : Prop :=
  ∀ (direction p : Vec3), L.castRay octomap position direction range = some p →
    ¬ normExceeds position p range

/-! ## The ray routines of `octomap` in exact arithmetic

The voxel traversal of `castRay` and `computeRayKeys` (Amanatides and Woo) is
carried out on the direction as given, without normalising it: every `tMax` and
`tDelta` is then scaled by the same positive factor, so the comparisons between
them select the same voxels.  A `tMax` of `none` stands for
`std::numeric_limits<double>::max()`. -/

/-- Component `i` of a point. -/
def Vec3.get (v : Vec3) (i : Nat) : ℚ :=
  match i with
  | 0 => v.x
  | 1 => v.y
  | _ => v.z

/-- Component `i` of a key. -/
def OcTreeKey.get (key : OcTreeKey) (i : Nat) : Nat :=
  match i with
  | 0 => key.k0
  | 1 => key.k1
  | _ => key.k2

/-- Step direction of the traversal along one axis. -/
def stepOf (d : ℚ) : ℤ := if 0 < d then 1 else if d < 0 then -1 else 0

/-- The statement `current_key[dim] += step[dim]`. -/
def OcTreeKey.step (key : OcTreeKey) (i : Nat) (s : ℤ) : OcTreeKey :=
  key.addAt i (s % 65536).toNat

/-- Initial `tMax` of one axis. -/
def tMaxInit (resolution : ℚ) (k : Nat) (o d : ℚ) : Option ℚ :=
  if stepOf d = 0 then none
  else some ((keyToCoord resolution k + (stepOf d : ℚ) * resolution * (1 / 2) - o) / d)

/-- The increment `tDelta` of one axis. -/
def tDeltaOf (resolution d : ℚ) : Option ℚ :=
  if stepOf d = 0 then none else some (resolution / |d|)

/-- The comparison `a < b` of two `tMax` values. -/
def tLess : Option ℚ → Option ℚ → Bool
  | some a, some b => decide (a < b)
  | some _, none => true
  | none, _ => false

/-- Sum of a `tMax` and a `tDelta`. -/
def tAdd : Option ℚ → Option ℚ → Option ℚ
  | some a, some b => some (a + b)
  | _, _ => none

/-- The three `tMax` values of a traversal. -/
structure TMax where
  t0 : Option ℚ
  t1 : Option ℚ
  t2 : Option ℚ

/-- Axis of the smallest `tMax`, with the tie-breaks of the library. -/
def TMax.dim (t : TMax) : Nat :=
  if tLess t.t0 t.t1 then (if tLess t.t0 t.t2 then 0 else 2)
  else (if tLess t.t1 t.t2 then 1 else 2)

/-- The statement `tMax[dim] += tDelta[dim]`. -/
def TMax.advance (t : TMax) (resolution : ℚ) (d : Vec3) (i : Nat) : TMax :=
  match i with
  | 0 => { t with t0 := tAdd t.t0 (tDeltaOf resolution d.x) }
  | 1 => { t with t1 := tAdd t.t1 (tDeltaOf resolution d.y) }
  | _ => { t with t2 := tAdd t.t2 (tDeltaOf resolution d.z) }

/-- Initial `tMax` values at a start key. -/
def TMax.init (resolution : ℚ) (key : OcTreeKey) (origin d : Vec3) : TMax :=
  ⟨tMaxInit resolution key.k0 origin.x d.x, tMaxInit resolution key.k1 origin.y d.y,
    tMaxInit resolution key.k2 origin.z d.z⟩

/-- The test `min(tMax[0], tMax[1], tMax[2]) > length`. -/
def TMax.beyond (t : TMax) (length : ℚ) : Bool :=
  tLess (some length) t.t0 && tLess (some length) t.t1 && tLess (some length) t.t2

/-- Incremental phase of `castRay` with `ignoreUnknown = true`. -/
def castRayLoop (t : OcTree) (origin d : Vec3) (maxRange : ℚ) :
    Nat → OcTreeKey → TMax → Option Vec3
  | 0, _, _ => none
  | fuel + 1, current_key, tMax =>
    let dim := tMax.dim
    if (stepOf (d.get dim) < 0 ∧ current_key.get dim = 0)
        ∨ (0 < stepOf (d.get dim) ∧ current_key.get dim = 2 * tree_max_val - 1) then none
    else
      let key1 := current_key.step dim (stepOf (d.get dim))
      let tMax1 := tMax.advance t.resolution d dim
      let end_ := keyToPoint t.resolution key1
      if 0 < maxRange ∧ maxRange * maxRange < normSq origin end_ then none
      else
        match t.search key1 with
        | some currentNode =>
          if isNodeOccupied currentNode then some end_
          else castRayLoop t origin d maxRange fuel key1 tMax1
        | none => castRayLoop t origin d maxRange fuel key1 tMax1

/-- The routine `castRay(origin, direction, end, true, maxRange)`. -/
def castRayExact (t : OcTree) (origin direction : Vec3) (maxRange : ℚ) : Option Vec3 :=
  match coordToKeyChecked t.resolution origin with
  | none => none
  | some current_key =>
    match t.search current_key with
    | some startingNode =>
      if isNodeOccupied startingNode then some (keyToPoint t.resolution current_key)
      else if stepOf direction.x = 0 ∧ stepOf direction.y = 0 ∧ stepOf direction.z = 0 then none
      else castRayLoop t origin direction maxRange (6 * tree_max_val) current_key
        (TMax.init t.resolution current_key origin direction)
    | none =>
      if stepOf direction.x = 0 ∧ stepOf direction.y = 0 ∧ stepOf direction.z = 0 then none
      else castRayLoop t origin direction maxRange (6 * tree_max_val) current_key
        (TMax.init t.resolution current_key origin direction)

/-- Incremental phase of `computeRayKeys`; the direction is `end - origin`, so
the length of the ray is `1`. -/
def computeRayKeysLoop (resolution : ℚ) (d : Vec3) (key_end : OcTreeKey) :
    Nat → OcTreeKey → TMax → List OcTreeKey
  | 0, _, _ => []
  | fuel + 1, current_key, tMax =>
    let dim := tMax.dim
    let key1 := current_key.step dim (stepOf (d.get dim))
    let tMax1 := tMax.advance resolution d dim
    if key1 = key_end then []
    else if tMax1.beyond 1 then []
    else key1 :: computeRayKeysLoop resolution d key_end fuel key1 tMax1

/-- The routine `computeRayKeys(origin, end, ray)`. -/
def computeRayKeysExact (resolution : ℚ) (origin end_ : Vec3) : Option (List OcTreeKey) :=
  match coordToKeyChecked resolution origin, coordToKeyChecked resolution end_ with
  | some key_origin, some key_end =>
    if key_origin = key_end then some []
    else
      let d : Vec3 := ⟨end_.x - origin.x, end_.y - origin.y, end_.z - origin.z⟩
      some (key_origin :: computeRayKeysLoop resolution d key_end 100000 key_origin
        (TMax.init resolution key_origin origin d))
  | _, _ => none

/-- One Heron step towards the square root of `q`, rounded down to six
decimals. -/
def sqrtStep (q x : ℚ) : ℚ :=
  ((⌊(x + q / x) / 2 * 1000000⌋ : ℤ) : ℚ) / 1000000

/-- Rational square root to about six decimals. -/
def sqrtApprox (q : ℚ) : ℚ :=
  Nat.iterate (sqrtStep q) 40 (1 + q)

/-- The point `origin + (end - origin).normalized() * maxrange`. -/
def cutRayApprox (origin end_ : Vec3) (maxrange : ℚ) : Vec3 :=
  let f := maxrange / sqrtApprox (normSq origin end_)
  ⟨origin.x + (end_.x - origin.x) * f, origin.y + (end_.y - origin.y) * f,
    origin.z + (end_.z - origin.z) * f⟩

/-- Polynomial stand-in for the sine, exact at `0`. -/
def sinApprox (a : ℚ) : ℚ := a - a * a * a / 6

/-- Polynomial stand-in for the cosine, exact at `0`. -/
def cosApprox (a : ℚ) : ℚ := 1 - a * a / 2

/-- Stand-in for `atan2(y, x)`, exact for `y = 0` and positive `x`. -/
def atan2Approx (y x : ℚ) : ℚ :=
  if 0 < x then y / x else if 0 ≤ y then 3 / 2 else -3 / 2

/-- The rotation `Vector3::rotate_IP(roll, pitch, yaw)`: about y by `pitch`,
then about z by `yaw`, then about x by `roll`. -/
def rotateApprox (v : Vec3) (roll pitch yaw : ℚ) : Vec3 :=
  let x1 := v.z * sinApprox pitch + v.x * cosApprox pitch
  let z1 := v.z * cosApprox pitch - v.x * sinApprox pitch
  let x2 := x1 * cosApprox yaw - v.y * sinApprox yaw
  let y2 := x1 * sinApprox yaw + v.y * cosApprox yaw
  let y3 := y2 * cosApprox roll - z1 * sinApprox roll
  let z3 := y2 * sinApprox roll + z1 * cosApprox roll
  ⟨x2, y3, z3⟩

/-- The yaw of `Quaternion::toEuler()`: `atan2(m10, m00)` of the rotation
matrix. -/
def yawApprox (q : Quaternion) : ℚ :=
  let nn := q.u * q.u + q.x * q.x + q.y * q.y + q.z * q.z
  let s := if 0 < nn then 2 / nn else 0
  let m00 := 1 - (q.y * (q.y * s) + q.z * (q.z * s))
  let m10 := q.x * (q.y * s) + q.u * (q.z * s)
  atan2Approx m10 m00

/-- The library with the ray routines in exact arithmetic.  The trigonometric
functions are stand-ins that are exact at angle `0`, where the examples below
evaluate them: the orientation of every example pose has yaw `0` and the fields
of view of the example configurations are `0`, so that each pose casts the one
ray along the base direction. -/
def exactLibrary : Library where
  DEGREE := 17453292519943295 / 1000000000000000000
  DEGREE_pos := by norm_num
  yaw := yawApprox
  rotate_IP := rotateApprox
  castRay := castRayExact
  computeRayKeys := computeRayKeysExact
  cutRay := cutRayApprox

/-! ## Example data -/

/-- Key of the voxel `[a, a+1] x [b, b+1] x [0, 1]` at resolution `1`. -/
def voxel (a b : Nat) : OcTreeKey := ⟨tree_max_val + a, tree_max_val + b, tree_max_val⟩

/-- An occupied leaf, hit once. -/
def occupiedNode : OcTreeNode := ⟨prob_hit_log, defaultColor⟩

/-- Default height band, range `10`, a single ray per pose along `(5, 1, 0)`. -/
def exampleConfig : Config :=
  ⟨3 / 10, 2, 10, 0, 0, "orthogonal", 5, 1, 0⟩

/-- Environment with two occupied voxels, neighbours along the x axis. -/
def exampleMap : OcTree := ⟨1, [(voxel 2 1, occupiedNode), (voxel 3 1, occupiedNode)]⟩

/-- The node after `exampleMap` has been received. -/
def exampleLoaded : OnlineCoverage :=
  octomapCallback (OnlineCoverage.init exampleConfig) (some (AbstractOcTree.colorOcTree exampleMap))

/-- Orientation with yaw `0`. -/
def identityOrientation : Quaternion := ⟨1, 0, 0, 0⟩

/-- Pose whose ray hits the voxel `voxel 2 1`. -/
def poseA : Pose := ⟨⟨1 / 2, 3 / 2, 1 / 2⟩, identityOrientation⟩

/-- Pose whose ray hits the voxel `voxel 3 1`; the segment to the centre of
that voxel passes through `voxel 2 1`. -/
def poseB : Pose := ⟨⟨1 / 2, 2 / 5, 1 / 2⟩, identityOrientation⟩

/-- Environment whose only occupied voxel lies above the height band. -/
def highMap : OcTree := ⟨1, [(⟨tree_max_val + 2, tree_max_val + 1, tree_max_val + 5⟩, occupiedNode)]⟩

/-- Pose at the height of the voxel of `highMap`. -/
def poseHigh : Pose := ⟨⟨1 / 2, 3 / 2, 11 / 2⟩, identityOrientation⟩

/-- Environment without any voxel. -/
def emptyMap : OcTree := ⟨1, []⟩

/-- The node after `emptyMap` has been received. -/
def emptyLoaded : OnlineCoverage :=
  octomapCallback (OnlineCoverage.init exampleConfig) (some (AbstractOcTree.colorOcTree emptyMap))

/-- Two occupied voxels `voxel 4 0`, `voxel 5 0`; `voxel 3 0` and `voxel 6 0`
are unknown. -/
def backwardRunMap : OcTree := ⟨1, [(voxel 5 0, occupiedNode), (voxel 4 0, occupiedNode)]⟩

/-- Three occupied voxels in a row along x from `voxel 0 0`, and an occupied
voxel `voxel 0 1` next to the first one along y with `voxel 0 2` unknown. -/
def crossMap : OcTree :=
  ⟨1, [(voxel 0 0, occupiedNode), (voxel 1 0, occupiedNode), (voxel 2 0, occupiedNode),
    (voxel 0 1, occupiedNode)]⟩

/-- Three occupied voxels in a row along x from `voxel 0 0`. -/
def rowMap : OcTree :=
  ⟨1, [(voxel 0 0, occupiedNode), (voxel 1 0, occupiedNode), (voxel 2 0, occupiedNode)]⟩

/-- A free leaf, missed once. -/
def freeNode : OcTreeNode := ⟨prob_miss_log, defaultColor⟩

/-- Coverage tree after `poseA` on the empty tree. -/
def coveredA : OcTree :=
  ⟨1, [(voxel 0 1, freeNode), (voxel 1 1, freeNode), (voxel 2 1, ⟨prob_hit_log, orthogonalColor⟩)]⟩

/-- Coverage tree after `poseA` twice on the empty tree. -/
def coveredAA : OcTree :=
  ⟨1, [(voxel 0 1, ⟨prob_miss_log + prob_miss_log, defaultColor⟩),
    (voxel 1 1, ⟨prob_miss_log + prob_miss_log, defaultColor⟩),
    (voxel 2 1, ⟨prob_hit_log + prob_hit_log, orthogonalColor⟩)]⟩

/-- Coverage tree after `poseA` and then `poseB` on the empty tree. -/
def coveredAB : OcTree :=
  ⟨1, [(voxel 0 1, freeNode), (voxel 1 1, freeNode),
    (voxel 2 1, ⟨prob_hit_log + prob_miss_log, orthogonalColor⟩),
    (voxel 0 0, freeNode), (voxel 1 0, freeNode), (voxel 2 0, freeNode),
    (voxel 3 1, ⟨prob_hit_log, orthogonalColor⟩)]⟩

/-- The node `exampleLoaded` with the coverage tree replaced. -/
def exampleWith (covered : OcTree) : OnlineCoverage :=
  { exampleLoaded with _covered := some covered }

/-! ## Theorems -/

/-! ### Volume estimation -/

theorem foldl_add_eq_sum {α : Type} (f : α → ℚ) (l : List α) (init : ℚ) :
    l.foldl (fun acc a => acc + f a) init = init + (l.map f).sum := by
  induction l generalizing init with
  | nil => simp
  | cons a rest ih => simp [List.foldl_cons, ih, add_assoc]

theorem calculateOccupiedVolumeOcTree_eq_sum (cfg : Config) (t : OcTree) :
    calculateOccupiedVolumeOcTree cfg t = (t.leaves.map (leafVolumeOcTree cfg t)).sum := by
  unfold calculateOccupiedVolumeOcTree
  rw [foldl_add_eq_sum]; simp

theorem calculateOccupiedVolumeColorOcTree_eq_sum (cfg : Config) (t : OcTree) :
    calculateOccupiedVolumeColorOcTree cfg t
      = (t.leaves.map (leafVolumeColorOcTree cfg t)).sum := by
  unfold calculateOccupiedVolumeColorOcTree
  rw [foldl_add_eq_sum]; simp

theorem sum_eq_sum_filter_of_zero {α : Type} (f : α → ℚ) (p : α → Bool) (l : List α)
    (h : ∀ a ∈ l, p a = false → f a = 0) :
    (l.map f).sum = ((l.filter p).map f).sum := by
  induction l with
  | nil => simp
  | cons a rest ih =>
    have ih1 := ih (fun b hb => h b (List.mem_cons_of_mem a hb))
    by_cases hp : p a = true
    · simp [List.filter_cons, hp, ih1]
    · have hp1 : p a = false := by simpa using hp
      simp [List.filter_cons, hp1, ih1, h a (List.mem_cons_self a rest) hp1]

theorem sum_eq_filter_ne_add {β : Type} [DecidableEq β] (f : OcTreeKey × β → ℚ)
    (l : List (OcTreeKey × β)) (a : OcTreeKey) (n : β)
    (hnodup : (l.map Prod.fst).Nodup) (hmem : (a, n) ∈ l) :
    (l.map f).sum = ((l.filter (fun leaf => decide (leaf.1 ≠ a))).map f).sum + f (a, n) := by
  induction l with
  | nil => simp at hmem
  | cons b rest ih =>
    simp only [List.map_cons, List.nodup_cons] at hnodup
    by_cases hb : b.1 = a
    · have hba : b = (a, n) := by
        rcases List.mem_cons.mp hmem with h | h
        · exact h.symm
        · exact absurd (List.mem_map_of_mem Prod.fst h) (by simpa [hb] using hnodup.1)
      have hrest : ∀ c ∈ rest, decide (c.1 ≠ a) = true := by
        intro c hc
        have : c.1 ≠ a := by
          intro hca
          apply hnodup.1
          rw [hb, ← hca]
          exact List.mem_map_of_mem Prod.fst hc
        simpa using this
      have hfilter : rest.filter (fun leaf => decide (leaf.1 ≠ a)) = rest :=
        List.filter_eq_self.mpr hrest
      rw [List.map_cons, List.sum_cons, List.filter_cons, hfilter, hba]
      simp [add_comm]
    · have hmem1 : (a, n) ∈ rest := by
        rcases List.mem_cons.mp hmem with h | h
        · exact absurd (by rw [← h]) hb
        · exact h
      have ih1 := ih hnodup.2 hmem1
      simp [List.filter_cons, hb, ih1, add_assoc]

theorem exclude_of_neighborNoise (t : OcTree) (key : OcTreeKey) (i : Nat) (hi : i ≤ 1)
    (h : neighborNoise t key i = true) : exclude t key = true := by
  unfold exclude excludeLoop excludeLoop excludeLoop
  interval_cases i
  · simp [h]
  · simp [h]

theorem neighborNoise_of_run (t : OcTree) (key : OcTreeKey) (i : Nat) (nB : OcTreeNode)
    (hB : t.search (key.addAt i 1) = some nB) (hBocc : isNodeOccupied nB)
    (hC : t.search (key.addAt i 2) = none) : neighborNoise t key i = true := by
  simp [neighborNoise, hB, hBocc, hC]

/-- C4 (amended).  In the plain volume, when the voxel one key step above a
leaf `a` along a horizontal axis `i` is occupied and the voxel two key steps
above `a` is absent, the leaf `a` adds nothing: the volume is the tally with the
contribution of `a` left out. -/
theorem plain_volume_excludes_forward_run (cfg : Config) (t : OcTree) (a : OcTreeKey)
    (nA nB : OcTreeNode) (i : Nat) (hi : i ≤ 1)
    (hB : t.search (a.addAt i 1) = some nB) (hBocc : isNodeOccupied nB)
    (hC : t.search (a.addAt i 2) = none) :
    leafVolumeOcTree cfg t (a, nA) = 0
      ∧ calculateOccupiedVolumeOcTree cfg t = tallyWithout cfg t a := by
  have hex : exclude t a = true :=
    exclude_of_neighborNoise t a i hi (neighborNoise_of_run t a i nB hB hBocc hC)
  constructor
  · simp [leafVolumeOcTree, hex]
  · rw [calculateOccupiedVolumeOcTree_eq_sum, tallyWithout]
    apply sum_eq_sum_filter_of_zero
    intro leaf _ hleaf
    have hkey : leaf.1 = a := by simpa using hleaf
    simp [leafVolumeOcTree, hkey, hex]

/-- C4 (witness).  The first voxel of `exampleMap` is followed along x by an
occupied voxel and then by an unknown one. -/
theorem plain_volume_excludes_forward_run_witness :
    leafVolumeOcTree exampleConfig exampleMap (voxel 2 1, occupiedNode) = 0
      ∧ calculateOccupiedVolumeOcTree exampleConfig exampleMap
          = tallyWithout exampleConfig exampleMap (voxel 2 1) :=
  plain_volume_excludes_forward_run exampleConfig exampleMap (voxel 2 1) occupiedNode
    occupiedNode 0 (by decide) (by decide!) (by decide!) (by decide!)

/-- C4 (counterexample).  In `backwardRunMap` the voxel `voxel 5 0` is an
occupied in-band leaf, its neighbour `voxel 4 0` is occupied and the next voxel
`voxel 3 0` is absent, yet `voxel 5 0` is counted: the volume is `1` while the
tally without it is `0`. -/
theorem backward_run_is_counted :
    (voxel 5 0, occupiedNode) ∈ backwardRunMap.leaves
      ∧ isNodeOccupied occupiedNode
      ∧ ¬ outOfBand exampleConfig (keyToCoord backwardRunMap.resolution (voxel 5 0).k2)
      ∧ backwardRunMap.search (voxel 4 0) = some occupiedNode
      ∧ backwardRunMap.search (voxel 3 0) = none
      ∧ calculateOccupiedVolumeOcTree exampleConfig backwardRunMap = 1
      ∧ tallyWithout exampleConfig backwardRunMap (voxel 5 0) = 0 := by
  decide!

/-- C5 (amended).  In the plain volume, an occupied in-band leaf `a` of a tree
without duplicate keys adds `resolution^3` when, along a horizontal axis `i`, the
voxel one key step above `a` is occupied and the voxel two key steps above `a` is
present, and along the other horizontal axis there is no occupied-then-absent
run above `a`. -/
theorem plain_volume_includes_full_run (cfg : Config) (t : OcTree) (a : OcTreeKey)
    (nA nB nC : OcTreeNode) (i : Nat) (hi : i ≤ 1)
    (hnodup : (t.leaves.map Prod.fst).Nodup)
    (hA : (a, nA) ∈ t.leaves) (hAocc : isNodeOccupied nA)
    (hband : ¬ outOfBand cfg (keyToCoord t.resolution a.k2))
    (hB : t.search (a.addAt i 1) = some nB) (hBocc : isNodeOccupied nB)
    (hC : t.search (a.addAt i 2) = some nC)
    (hother : neighborNoise t a (1 - i) = false) :
    leafVolumeOcTree cfg t (a, nA) = t.resolution * t.resolution * t.resolution
      ∧ calculateOccupiedVolumeOcTree cfg t
          = tallyWithout cfg t a + t.resolution * t.resolution * t.resolution := by
  have hthis : neighborNoise t a i = false := by
    simp [neighborNoise, hB, hBocc, hC]
  have hex : exclude t a = false := by
    unfold exclude excludeLoop excludeLoop excludeLoop
    interval_cases i
    · simp at hother; simp [hthis, hother]
    · simp at hother; simp [hthis, hother]
  have hleaf : leafVolumeOcTree cfg t (a, nA) = t.resolution * t.resolution * t.resolution := by
    simp [leafVolumeOcTree, hband, hAocc, hex]
  refine ⟨hleaf, ?_⟩
  rw [calculateOccupiedVolumeOcTree_eq_sum, tallyWithout,
    sum_eq_filter_ne_add (leafVolumeOcTree cfg t) t.leaves a nA hnodup hA, hleaf]

/-- C5 (witness).  The first voxel of `rowMap` heads a run of three occupied
voxels along x and has no neighbour along y. -/
theorem plain_volume_includes_full_run_witness :
    leafVolumeOcTree exampleConfig rowMap (voxel 0 0, occupiedNode)
        = rowMap.resolution * rowMap.resolution * rowMap.resolution
      ∧ calculateOccupiedVolumeOcTree exampleConfig rowMap
          = tallyWithout exampleConfig rowMap (voxel 0 0)
            + rowMap.resolution * rowMap.resolution * rowMap.resolution :=
  plain_volume_includes_full_run exampleConfig rowMap (voxel 0 0) occupiedNode occupiedNode
    occupiedNode 0 (by decide) (by decide!) (by decide!) (by decide!) (by decide!)
    (by decide!) (by decide!) (by decide!) (by decide!)

/-- C5 (counterexample).  In `crossMap` the voxel `voxel 0 0` is an occupied
in-band leaf and its neighbours `voxel 1 0` and `voxel 2 0` along x are occupied,
yet it is left out of the tally, because of the run along y: the volume equals
the tally without it, and not that tally plus `resolution^3`. -/
theorem full_run_is_excluded_by_other_axis :
    (voxel 0 0, occupiedNode) ∈ crossMap.leaves
      ∧ isNodeOccupied occupiedNode
      ∧ ¬ outOfBand exampleConfig (keyToCoord crossMap.resolution (voxel 0 0).k2)
      ∧ crossMap.search (voxel 1 0) = some occupiedNode
      ∧ crossMap.search (voxel 2 0) = some occupiedNode
      ∧ leafVolumeOcTree exampleConfig crossMap (voxel 0 0, occupiedNode) = 0
      ∧ calculateOccupiedVolumeOcTree exampleConfig crossMap
          = tallyWithout exampleConfig crossMap (voxel 0 0)
      ∧ calculateOccupiedVolumeOcTree exampleConfig crossMap
          ≠ tallyWithout exampleConfig crossMap (voxel 0 0)
            + crossMap.resolution * crossMap.resolution * crossMap.resolution := by
  decide!

/-! ### Environment snapshots and the percentage report -/

/-- A snapshot that deserialises to a tree which is not a `ColorOcTree`
overwrites the environment pointer with `NULL` before the method returns, while
the coverage tree, the cached volume and the loaded flag stay as they were;
unless the node was not loaded or the loops of the pose have no sample, a
following pose message then dereferences the `NULL` pointer.  A snapshot that
does not deserialise leaves the state as it was. -/
theorem octomapCallback_failed_cast_resets_octomap (L : Library) (s : OnlineCoverage)
    (treeType : String) (t : OcTree) (pose : Pose) :
    (octomapCallback s (some (AbstractOcTree.otherTree treeType t)))._octomap = none
      ∧ (octomapCallback s (some (AbstractOcTree.otherTree treeType t)))._covered = s._covered
      ∧ (octomapCallback s (some (AbstractOcTree.otherTree treeType t)))._octomap_volume
          = s._octomap_volume
      ∧ (octomapCallback s (some (AbstractOcTree.otherTree treeType t)))._octomap_loaded
          = s._octomap_loaded
      ∧ (s._octomap_loaded = false ∨ samples L s.cfg pose = []
          ∨ poseCallback L (octomapCallback s (some (AbstractOcTree.otherTree treeType t))) pose
            = none)
      ∧ octomapCallback s none = s := by
  refine ⟨rfl, rfl, rfl, rfl, ?_, rfl⟩
  by_cases hl : s._octomap_loaded = false
  · exact Or.inl hl
  · by_cases hs : samples L s.cfg pose = []
    · exact Or.inr (Or.inl hs)
    · refine Or.inr (Or.inr ?_)
      unfold poseCallback
      simp only [octomapCallback, AbstractOcTree.dynamicCastColor, hl]
      cases hc : s._covered <;> simp [hs]

/-- C1.  The node `exampleLoaded` holds `exampleMap` and handles `poseA`.  After
a snapshot that deserialises to a tree of type `OcTree`, which is a load failure,
the environment pointer is `NULL`, not `exampleMap`, with the loaded flag still
set, and handling `poseA` dereferences the `NULL` pointer. -/
theorem failed_cast_then_pose_dereferences_null :
    exampleLoaded._octomap = some exampleMap
      ∧ (poseCallback exactLibrary exampleLoaded poseA).isSome = true
      ∧ (octomapCallback exampleLoaded
          (some (AbstractOcTree.otherTree "OcTree" exampleMap)))._octomap = none
      ∧ (octomapCallback exampleLoaded
          (some (AbstractOcTree.otherTree "OcTree" exampleMap)))._octomap_loaded = true
      ∧ poseCallback exactLibrary
          (octomapCallback exampleLoaded (some (AbstractOcTree.otherTree "OcTree" exampleMap)))
          poseA = none := by
  decide!

theorem publishPercentage_snd (s : OnlineCoverage) (covered : OcTree) :
    (publishPercentage s covered).2
      = (if s._octomap_volume = 0 then
          (if calculateOccupiedVolumeColorOcTree s.cfg covered = 0 then FloatVal.nan
           else if 0 < calculateOccupiedVolumeColorOcTree s.cfg covered then FloatVal.posInf
           else FloatVal.negInf)
        else FloatVal.finite
          (100 * calculateOccupiedVolumeColorOcTree s.cfg covered / s._octomap_volume)) := by
  simp only [publishPercentage, FloatVal.div]
  split_ifs <;> simp [FloatVal.mul100, mul_div_assoc]

/-- C2 (amended).  The percentage report is the unguarded floating-point
expression `100 * (covered_volume / _octomap_volume)`: for a cached volume
different from `0` it is `100 * covered_volume / _octomap_volume`, and for a cached
volume `0` it is the result of the division, NaN for a covered volume `0` and an
infinity otherwise. -/
theorem publishPercentage_unguarded (s : OnlineCoverage) (covered : OcTree) :
    (publishPercentage s covered).1 = calculateOccupiedVolumeColorOcTree s.cfg covered
      ∧ (publishPercentage s covered).2
          = (if s._octomap_volume = 0 then
              (if calculateOccupiedVolumeColorOcTree s.cfg covered = 0 then FloatVal.nan
               else if 0 < calculateOccupiedVolumeColorOcTree s.cfg covered then FloatVal.posInf
               else FloatVal.negInf)
            else FloatVal.finite
              (100 * calculateOccupiedVolumeColorOcTree s.cfg covered / s._octomap_volume)) := by
  exact ⟨rfl, publishPercentage_snd s covered⟩

/-- C2 (counterexample).  After the empty environment `emptyMap` has been
loaded the cached volume is `0`, and the percentage published for a pose is NaN,
the result of dividing `0` by `0`. -/
theorem percentage_of_empty_map_is_nan :
    emptyLoaded._octomap_volume = 0
      ∧ emptyLoaded._covered = some (OcTree.empty 1)
      ∧ publishPercentage emptyLoaded (OcTree.empty 1) = (0, FloatVal.nan)
      ∧ (poseCallback exactLibrary emptyLoaded poseA).map
          (fun r => r.2.map Published.percentage) = some (some FloatVal.nan) := by
  decide!

/-! ### Height band -/

/-- C6.  A ray-cast hit whose `z` is outside the height band makes the loop body
of either shape leave the coverage tree as it is; a leaf whose centre is outside
the band adds nothing to either volume; hence the covered volume of any
coverage tree, in particular after any sequence of pose updates, is the sum over
its in-band leaves only. -/
theorem out_of_band_hit_never_covered (L : Library) (cfg : Config) (octomap covered : OcTree)
    (position : Vec3) (horizontal vertical : ℚ) (wall_point : Vec3)
    (hcast : L.castRay octomap position (L.rotate_IP cfg.direction 0 vertical horizontal)
      cfg._rfid_range = some wall_point)
    (hout : outOfBand cfg wall_point.z) :
    orthogonalBody L cfg octomap position covered horizontal vertical = covered
      ∧ circularBody L cfg octomap position covered horizontal vertical = covered
      ∧ (∀ (t : OcTree) (leaf : OcTreeKey × OcTreeNode),
          outOfBand cfg (keyToCoord t.resolution leaf.1.k2) →
            leafVolumeColorOcTree cfg t leaf = 0 ∧ leafVolumeOcTree cfg t leaf = 0)
      ∧ (∀ t : OcTree, calculateOccupiedVolumeColorOcTree cfg t
          = ((t.leaves.filter
                (fun leaf => decide (¬ outOfBand cfg (keyToCoord t.resolution leaf.1.k2)))).map
              (leafVolumeColorOcTree cfg t)).sum) := by
  refine ⟨?_, ?_, ?_, ?_⟩
  · simp [orthogonalBody, hcast, hout]
  · simp [circularBody, hcast, hout]
  · intro t leaf h
    simp [leafVolumeColorOcTree, leafVolumeOcTree, h]
  · intro t
    rw [calculateOccupiedVolumeColorOcTree_eq_sum]
    apply sum_eq_sum_filter_of_zero
    intro leaf _ hleaf
    have h : outOfBand cfg (keyToCoord t.resolution leaf.1.k2) := by simpa using hleaf
    simp [leafVolumeColorOcTree, h]

/-- C6 (witness).  From `poseHigh` the ray hits the voxel of `highMap`, whose
centre is at height `11 / 2`, above the band. -/
theorem out_of_band_hit_never_covered_witness :
    exactLibrary.castRay highMap poseHigh.position
        (exactLibrary.rotate_IP exampleConfig.direction 0 0 0) exampleConfig._rfid_range
        = some ⟨5 / 2, 3 / 2, 11 / 2⟩
      ∧ outOfBand exampleConfig (11 / 2)
      ∧ orthogonalBody exactLibrary exampleConfig highMap poseHigh.position (OcTree.empty 1) 0 0
          = OcTree.empty 1
      ∧ circularBody exactLibrary exampleConfig highMap poseHigh.position (OcTree.empty 1) 0 0
          = OcTree.empty 1 :=
  have h := out_of_band_hit_never_covered exactLibrary exampleConfig highMap (OcTree.empty 1)
    poseHigh.position 0 0 ⟨5 / 2, 3 / 2, 11 / 2⟩ (by decide!) (by decide!)
  ⟨by decide!, by decide!, h.1, h.2.1⟩

/-! ### The methods apply the listed node updates -/

theorem updateNode_resolution (t : OcTree) (key : OcTreeKey) (occupied : Bool) :
    (t.updateNode key occupied).resolution = t.resolution := by
  unfold OcTree.updateNode
  cases t.search key with
  | none => rfl
  | some leaf => simp only []; split_ifs <;> rfl

theorem applyOp_resolution (t : OcTree) (op : Op) : (t.applyOp op).resolution = t.resolution := by
  cases op with
  | update key occupied => exact updateNode_resolution t key occupied
  | color key c => rfl

theorem applyOps_resolution (t : OcTree) (ops : List Op) :
    (t.applyOps ops).resolution = t.resolution := by
  induction ops generalizing t with
  | nil => rfl
  | cons op rest ih =>
    show ((t.applyOp op).applyOps rest).resolution = t.resolution
    rw [ih, applyOp_resolution]

theorem applyOps_append (t : OcTree) (ops1 ops2 : List Op) :
    t.applyOps (ops1 ++ ops2) = (t.applyOps ops1).applyOps ops2 := by
  simp [OcTree.applyOps, List.foldl_append]

theorem integrateMissOnRay_eq_applyOps (L : Library) (t : OcTree) (origin end_ : Vec3) :
    integrateMissOnRay L t origin end_
      = (t.applyOps (missOps L t.resolution origin end_).1,
          (missOps L t.resolution origin end_).2) := by
  unfold integrateMissOnRay missOps
  cases L.computeRayKeys t.resolution origin end_ with
  | none => rfl
  | some ray => simp [OcTree.applyOps, List.foldl_map, OcTree.applyOp]

theorem updateNodePoint_eq_applyOps (t : OcTree) (p : Vec3) :
    t.updateNodePoint p true = t.applyOps (hitOps t.resolution p) := by
  unfold OcTree.updateNodePoint hitOps
  cases coordToKeyChecked t.resolution p <;> rfl

theorem setColorAt_eq_applyOps (t : OcTree) (p : Vec3) (c : Color) :
    t.setColorAt p c = t.applyOps (colorOps t.resolution p c) := by
  unfold OcTree.setColorAt colorOps
  cases coordToKeyChecked t.resolution p <;> rfl

theorem insertRay_eq_applyOps (L : Library) (t : OcTree) (origin end_ : Vec3) (maxrange : ℚ) :
    insertRay L t origin end_ maxrange
      = (t.applyOps (insertRayOps L t.resolution origin end_ maxrange).1,
          (insertRayOps L t.resolution origin end_ maxrange).2) := by
  unfold insertRay insertRayOps
  split_ifs with h
  · exact integrateMissOnRay_eq_applyOps L t origin _
  · rw [integrateMissOnRay_eq_applyOps]
    rcases hm : missOps L t.resolution origin end_ with ⟨ops, b⟩
    cases b with
    | false => rfl
    | true =>
      simp only [applyOps_append]
      rw [updateNodePoint_eq_applyOps, applyOps_resolution]

theorem orthogonalBody_eq_applyOps (L : Library) (cfg : Config) (octomap covered : OcTree)
    (position : Vec3) (horizontal vertical : ℚ) :
    orthogonalBody L cfg octomap position covered horizontal vertical
      = covered.applyOps
          (orthogonalBodyOps L cfg octomap covered.resolution position horizontal vertical) := by
  unfold orthogonalBody orthogonalBodyOps
  cases L.castRay octomap position (L.rotate_IP cfg.direction 0 vertical horizontal)
      cfg._rfid_range with
  | none => rfl
  | some wall_point =>
    simp only []
    split_ifs with h
    · rfl
    · rw [insertRay_eq_applyOps]
      rcases hm : insertRayOps L covered.resolution position wall_point cfg._rfid_range
        with ⟨ops, b⟩
      cases b with
      | false => rfl
      | true =>
        simp only [applyOps_append]
        rw [setColorAt_eq_applyOps, applyOps_resolution]

theorem circularBody_eq_applyOps (L : Library) (cfg : Config) (octomap covered : OcTree)
    (position : Vec3) (horizontal vertical : ℚ) :
    circularBody L cfg octomap position covered horizontal vertical
      = covered.applyOps
          (circularBodyOps L cfg octomap covered.resolution position horizontal vertical) := by
  unfold circularBody circularBodyOps
  cases L.castRay octomap position (L.rotate_IP cfg.direction 0 vertical horizontal)
      cfg._rfid_range with
  | none => rfl
  | some wall_point =>
    simp only []
    split_ifs with h h2
    · rfl
    · rfl
    · rw [insertRay_eq_applyOps]
      rcases hm : insertRayOps L covered.resolution position wall_point cfg._rfid_range
        with ⟨ops, b⟩
      cases b with
      | false => rfl
      | true =>
        simp only [applyOps_append]
        rw [setColorAt_eq_applyOps, applyOps_resolution]

theorem nested_foldl_eq_foldl_pairs {α β γ : Type} (f : γ → α → β → γ) (hs : List α)
    (vs : List β) (c : γ) :
    hs.foldl (fun cov h => vs.foldl (fun cov1 v => f cov1 h v) cov) c
      = (hs.flatMap (fun h => vs.map (fun v => (h, v)))).foldl
          (fun cov hv => f cov hv.1 hv.2) c := by
  induction hs generalizing c with
  | nil => rfl
  | cons h rest ih =>
    rw [List.foldl_cons, ih, List.flatMap_cons, List.foldl_append, List.foldl_map]

theorem foldl_eq_applyOps {α : Type} (f : OcTree → α → OcTree) (g : ℚ → α → List Op)
    (hf : ∀ (c : OcTree) (a : α), f c a = c.applyOps (g c.resolution a))
    (l : List α) (c : OcTree) :
    l.foldl f c = c.applyOps (l.flatMap (g c.resolution)) := by
  induction l generalizing c with
  | nil => rfl
  | cons a rest ih =>
    rw [List.foldl_cons, ih, hf, applyOps_resolution, List.flatMap_cons, applyOps_append]

theorem calculateOrthogonalCoverage_eq_applyOps (L : Library) (cfg : Config)
    (octomap covered : OcTree) (pose : Pose) :
    calculateOrthogonalCoverage L cfg octomap covered pose
      = covered.applyOps (orthogonalOps L cfg octomap covered.resolution pose) := by
  unfold calculateOrthogonalCoverage orthogonalOps samples
  simp only []
  rw [nested_foldl_eq_foldl_pairs
    (fun cov1 h v => orthogonalBody L cfg octomap pose.position cov1 h v)]
  exact foldl_eq_applyOps _
    (fun res (hv : ℚ × ℚ) => orthogonalBodyOps L cfg octomap res pose.position hv.1 hv.2)
    (fun c hv => orthogonalBody_eq_applyOps L cfg octomap c pose.position hv.1 hv.2) _ _

theorem calculateCircularCoverage_eq_applyOps (L : Library) (cfg : Config)
    (octomap covered : OcTree) (pose : Pose) :
    calculateCircularCoverage L cfg octomap covered pose
      = covered.applyOps (circularOps L cfg octomap covered.resolution pose) := by
  unfold calculateCircularCoverage circularOps samples
  simp only []
  rw [nested_foldl_eq_foldl_pairs
    (fun cov1 h v => circularBody L cfg octomap pose.position cov1 h v)]
  exact foldl_eq_applyOps _
    (fun res (hv : ℚ × ℚ) => circularBodyOps L cfg octomap res pose.position hv.1 hv.2)
    (fun c hv => circularBody_eq_applyOps L cfg octomap c pose.position hv.1 hv.2) _ _

/-- What `poseCallback` does on a loaded node: the coverage tree receives the
changes `poseOps`, and the report is published for the new tree. -/
theorem calculateCoverage_eq_applyOps (L : Library) (s : OnlineCoverage)
    (octomap covered : OcTree) (pose : Pose)
    (hloaded : s._octomap_loaded = true) (hmap : s._octomap = some octomap)
    (hcov : s._covered = some covered) :
    poseCallback L s pose
      = some (⟨s.cfg, s._octomap,
            some (covered.applyOps (poseOps L s.cfg octomap covered.resolution pose)),
            s._octomap_resolution, s._octomap_volume, s._octomap_loaded⟩,
          some ⟨covered.applyOps (poseOps L s.cfg octomap covered.resolution pose),
            calculateOccupiedVolumeColorOcTree s.cfg
              (covered.applyOps (poseOps L s.cfg octomap covered.resolution pose)),
            FloatVal.mul100 (FloatVal.div
              (calculateOccupiedVolumeColorOcTree s.cfg
                (covered.applyOps (poseOps L s.cfg octomap covered.resolution pose)))
              s._octomap_volume)⟩) := by
  unfold poseCallback poseOps publishPercentage
  by_cases h : s.cfg._sensor_shape = "circular"
  · simp [h, hloaded, hmap, hcov, calculateCircularCoverage_eq_applyOps]
  · simp [h, hloaded, hmap, hcov, calculateOrthogonalCoverage_eq_applyOps]

theorem poseCallback_of_null_octomap (L : Library) (s s1 : OnlineCoverage) (covered : OcTree)
    (pose : Pose) (out : Option Published)
    (hloaded : s._octomap_loaded = true) (hmap : s._octomap = none)
    (hcov : s._covered = some covered) (hpose : poseCallback L s pose = some (s1, out)) :
    s1 = s ∧ out = some ⟨covered, (publishPercentage s covered).1,
      (publishPercentage s covered).2⟩ := by
  unfold poseCallback at hpose
  simp only [hloaded, hmap, hcov] at hpose
  by_cases hs : samples L s.cfg pose = []
  · simp only [hs, if_true, Bool.true_eq_false, if_false, Option.some.injEq,
      Prod.mk.injEq] at hpose
    exact ⟨hpose.1.symm, hpose.2.symm⟩
  · simp [hs] at hpose

/-! ### Effect of the node updates on one voxel -/

theorem searchLeaves_updateLeaves_same (l : List (OcTreeKey × OcTreeNode)) (key : OcTreeKey)
    (update : ℚ) :
    searchLeaves (updateLeaves l key update) key
      = some ⟨updateNodeLogOdds (match searchLeaves l key with
                | some m => m.value
                | none => 0) update,
              match searchLeaves l key with
                | some m => m.color
                | none => defaultColor⟩ := by
  induction l with
  | nil => simp [updateLeaves, searchLeaves]
  | cons b rest ih =>
    rcases b with ⟨k, n⟩
    by_cases h : k = key
    · simp [updateLeaves, searchLeaves, h]
    · simp [updateLeaves, searchLeaves, h, ih]

theorem searchLeaves_updateLeaves_other (l : List (OcTreeKey × OcTreeNode))
    (key key1 : OcTreeKey) (update : ℚ) (hne : key1 ≠ key) :
    searchLeaves (updateLeaves l key update) key1 = searchLeaves l key1 := by
  induction l with
  | nil => simp [updateLeaves, searchLeaves, Ne.symm hne]
  | cons b rest ih =>
    rcases b with ⟨k, n⟩
    by_cases h : k = key
    · subst h
      simp [updateLeaves, searchLeaves, Ne.symm hne]
    · by_cases h1 : k = key1
      · subst h1
        simp [updateLeaves, searchLeaves, h]
      · simp [updateLeaves, searchLeaves, h, h1, ih]

theorem search_updateNode_other (t : OcTree) (key key1 : OcTreeKey) (occupied : Bool)
    (hne : key1 ≠ key) : (t.updateNode key occupied).search key1 = t.search key1 := by
  unfold OcTree.updateNode
  cases hs : t.search key with
  | none => exact searchLeaves_updateLeaves_other t.leaves key key1 _ hne
  | some leaf =>
    simp only []
    split_ifs <;> first | rfl | exact searchLeaves_updateLeaves_other t.leaves key key1 _ hne

theorem stepValue_zero (occupied : Bool) :
    stepValue occupied 0
      = updateNodeLogOdds 0 (if occupied then prob_hit_log else prob_miss_log) := by
  cases occupied <;>
    norm_num [stepValue, prob_hit_log, prob_miss_log, clamping_thres_max, clamping_thres_min]

theorem search_updateNode_same (t : OcTree) (key : OcTreeKey) (occupied : Bool) :
    ∃ n, (t.updateNode key occupied).search key = some n
      ∧ n.value = stepValue occupied (t.valueAt key) := by
  unfold OcTree.updateNode OcTree.valueAt
  cases hs : t.search key with
  | none =>
    refine ⟨_, searchLeaves_updateLeaves_same t.leaves key _, ?_⟩
    have hs1 : searchLeaves t.leaves key = none := hs
    simp [hs1, stepValue_zero]
  | some leaf =>
    have hs1 : searchLeaves t.leaves key = some leaf := hs
    simp only []
    by_cases hc : (0 ≤ (if occupied then prob_hit_log else prob_miss_log)
        ∧ clamping_thres_max ≤ leaf.value)
        ∨ ((if occupied then prob_hit_log else prob_miss_log) ≤ 0
          ∧ leaf.value ≤ clamping_thres_min)
    · rw [if_pos hc]
      exact ⟨leaf, hs, by simp [stepValue, hc]⟩
    · rw [if_neg hc]
      refine ⟨_, searchLeaves_updateLeaves_same t.leaves key _, ?_⟩
      simp [hs1, stepValue, hc]

theorem valueAt_updateNode_same (t : OcTree) (key : OcTreeKey) (occupied : Bool) :
    (t.updateNode key occupied).valueAt key = stepValue occupied (t.valueAt key) := by
  obtain ⟨n, hn, hv⟩ := search_updateNode_same t key occupied
  simp [OcTree.valueAt, hn, hv] at *

theorem searchLeaves_setColorLeaves (l : List (OcTreeKey × OcTreeNode)) (key key1 : OcTreeKey)
    (c : Color) :
    (searchLeaves (setColorLeaves l key c) key1).map OcTreeNode.value
      = (searchLeaves l key1).map OcTreeNode.value := by
  induction l with
  | nil => rfl
  | cons b rest ih =>
    rcases b with ⟨k, n⟩
    by_cases h : k = key
    · by_cases h1 : k = key1
      · simp [setColorLeaves, searchLeaves, h, h1]
        subst h; subst h1; simp
      · simp [setColorLeaves, searchLeaves, h, h1]
        subst h; simp [h1]
    · by_cases h1 : k = key1
      · subst h1
        simp [setColorLeaves, searchLeaves, h]
      · simp [setColorLeaves, searchLeaves, h, h1, ih]

theorem valueAt_eq_of_search_map_eq (t t1 : OcTree) (key : OcTreeKey)
    (h : (t1.search key).map OcTreeNode.value = (t.search key).map OcTreeNode.value) :
    t1.valueAt key = t.valueAt key ∧ (t1.search key).isSome = (t.search key).isSome := by
  unfold OcTree.valueAt
  cases h1 : t1.search key <;> cases h2 : t.search key <;> simp_all

theorem valueAt_applyOp (t : OcTree) (op : Op) (key : OcTreeKey) :
    (t.applyOp op).valueAt key = op.valueStep key (t.valueAt key) := by
  cases op with
  | update key1 occupied =>
    by_cases h : key1 = key
    · subst h
      simp [OcTree.applyOp, Op.valueStep, valueAt_updateNode_same]
    · simp [OcTree.applyOp, Op.valueStep, h, OcTree.valueAt,
        search_updateNode_other t key1 key occupied (Ne.symm h)]
  | color key1 c =>
    exact (valueAt_eq_of_search_map_eq t (t.applyOp (Op.color key1 c)) key
      (searchLeaves_setColorLeaves t.leaves key1 key c)).1

theorem isSome_search_applyOp (t : OcTree) (op : Op) (key : OcTreeKey) :
    ((t.applyOp op).search key).isSome = ((t.search key).isSome || op.updates key) := by
  cases op with
  | update key1 occupied =>
    by_cases h : key1 = key
    · subst h
      obtain ⟨n, hn, _⟩ := search_updateNode_same t key1 occupied
      simp [OcTree.applyOp, Op.updates, hn]
    · simp [OcTree.applyOp, Op.updates, h,
        search_updateNode_other t key1 key occupied (Ne.symm h)]
  | color key1 c =>
    simpa [Op.updates] using (valueAt_eq_of_search_map_eq t (t.applyOp (Op.color key1 c)) key
      (searchLeaves_setColorLeaves t.leaves key1 key c)).2

theorem valueAt_applyOps (t : OcTree) (ops : List Op) (key : OcTreeKey) :
    (t.applyOps ops).valueAt key = valueSteps ops key (t.valueAt key) := by
  induction ops generalizing t with
  | nil => rfl
  | cons op rest ih =>
    show ((t.applyOp op).applyOps rest).valueAt key = _
    rw [ih, valueAt_applyOp]; rfl

theorem isSome_search_applyOps (t : OcTree) (ops : List Op) (key : OcTreeKey) :
    ((t.applyOps ops).search key).isSome
      = ((t.search key).isSome || ops.any (fun op => op.updates key)) := by
  induction ops generalizing t with
  | nil => simp [OcTree.applyOps]
  | cons op rest ih =>
    show (((t.applyOp op).applyOps rest).search key).isSome = _
    rw [ih, isSome_search_applyOp]
    simp [Bool.or_assoc]

theorem isOccupiedAt_iff (t : OcTree) (key : OcTreeKey) :
    t.isOccupiedAt key ↔ (t.search key).isSome = true ∧ occ_prob_thres_log ≤ t.valueAt key := by
  unfold OcTree.isOccupiedAt OcTree.valueAt isNodeOccupied
  cases t.search key <;> simp

theorem stepValue_hit_nonneg (v : ℚ) (h : occ_prob_thres_log ≤ v) :
    occ_prob_thres_log ≤ stepValue true v := by
  unfold stepValue updateNodeLogOdds
  simp only [occ_prob_thres_log, prob_hit_log, prob_miss_log, clamping_thres_max,
    clamping_thres_min, if_true] at *
  split_ifs <;> linarith

theorem valueSteps_nonneg_of_no_miss (ops : List Op) (key : OcTreeKey) (v : ℚ)
    (h : occ_prob_thres_log ≤ v) (hops : Op.update key false ∉ ops) :
    occ_prob_thres_log ≤ valueSteps ops key v := by
  induction ops generalizing v with
  | nil => exact h
  | cons op rest ih =>
    have hrest : Op.update key false ∉ rest := fun hm => hops (List.mem_cons_of_mem _ hm)
    have hop : op ≠ Op.update key false := fun he => hops (he ▸ List.mem_cons_self _ _)
    show occ_prob_thres_log ≤ valueSteps rest key (op.valueStep key v)
    apply ih _ _ hrest
    cases op with
    | color key1 c => exact h
    | update key1 occupied =>
      by_cases hk : key1 = key
      · subst hk
        cases occupied with
        | false => exact absurd rfl hop
        | true => simpa [Op.valueStep] using stepValue_hit_nonneg v h
      · simpa [Op.valueStep, hk] using h

/-! ### Monotonicity of the coverage tree -/

/-- C8 (amended).  Through a pose update every voxel stored in the coverage
tree stays stored, and a covered voxel stays covered unless the update marks it
free as an intermediate voxel of an inserted ray, that is unless
`updateNode(key, false)` is among the node updates of the pose. -/
theorem coverage_monotone_unless_marked_free (L : Library) (s s1 : OnlineCoverage) (pose : Pose)
    (out : Option Published) (covered covered1 : OcTree) (key : OcTreeKey)
    (hpose : poseCallback L s pose = some (s1, out))
    (hcov : s._covered = some covered) (hcov1 : s1._covered = some covered1)
    (hkey : (covered.search key).isSome = true) :
    (covered1.search key).isSome = true
      ∧ (covered.isOccupiedAt key →
          (∀ octomap, s._octomap = some octomap →
            Op.update key false ∉ poseOps L s.cfg octomap covered.resolution pose) →
          covered1.isOccupiedAt key) := by
  by_cases hloaded : s._octomap_loaded = true
  · cases hmap : s._octomap with
    | none =>
      obtain ⟨hs1, _⟩ := poseCallback_of_null_octomap L s s1 covered pose out hloaded hmap hcov
        hpose
      subst hs1
      rw [hcov] at hcov1
      cases hcov1
      exact ⟨hkey, fun hocc _ => hocc⟩
    | some octomap =>
      rw [calculateCoverage_eq_applyOps L s octomap covered pose hloaded hmap hcov] at hpose
      simp only [Option.some.injEq, Prod.mk.injEq] at hpose
      have h1 : covered1 = covered.applyOps (poseOps L s.cfg octomap covered.resolution pose) := by
        have := hpose.1
        subst this
        simpa using hcov1.symm
      subst h1
      refine ⟨by rw [isSome_search_applyOps, hkey]; rfl, ?_⟩
      intro hocc hno
      rw [isOccupiedAt_iff] at hocc ⊢
      refine ⟨by rw [isSome_search_applyOps, hkey]; rfl, ?_⟩
      rw [valueAt_applyOps]
      exact valueSteps_nonneg_of_no_miss _ key _ hocc.2 (hno octomap rfl)
  · have hl : s._octomap_loaded = false := by simpa using hloaded
    simp only [poseCallback, hl, if_true, Option.some.injEq, Prod.mk.injEq] at hpose
    have h1 : covered1 = covered := by
      have := hpose.1
      subst this
      rw [hcov] at hcov1
      exact (Option.some.inj hcov1).symm
    subst h1
    exact ⟨hkey, fun hocc _ => hocc⟩

/-- C8 (witness).  A second update with `poseA`, whose inserted ray ends in
`voxel 2 1` and does not pass through it, leaves that voxel stored and covered. -/
theorem coverage_monotone_unless_marked_free_witness :
    poseCallback exactLibrary (exampleWith coveredA) poseA
        = some (exampleWith coveredAA, some ⟨coveredAA, 1, FloatVal.finite 100⟩)
      ∧ coveredA.isOccupiedAt (voxel 2 1)
      ∧ (coveredAA.search (voxel 2 1)).isSome = true
      ∧ coveredAA.isOccupiedAt (voxel 2 1) :=
  have h := coverage_monotone_unless_marked_free exactLibrary (exampleWith coveredA)
    (exampleWith coveredAA) poseA (some ⟨coveredAA, 1, FloatVal.finite 100⟩) coveredA coveredAA
    (voxel 2 1) (by decide!) rfl rfl (by decide!)
  ⟨by decide!, by decide!, h.1,
    h.2 (by decide!) (fun octomap hmap => by
      have h0 : (exampleWith coveredA)._octomap = some exampleMap := by decide!
      rw [h0] at hmap
      cases hmap
      decide!)⟩

/-- C8 (counterexample).  With `exampleMap` loaded, the pose `poseA` marks the
voxel `voxel 2 1` covered; three later updates with `poseB`, whose inserted ray
passes through that voxel, turn it free. -/
theorem covered_voxel_turned_free :
    (∃ s1 c1, poseCallbacks exactLibrary exampleLoaded [poseA] = some s1
        ∧ s1._covered = some c1 ∧ c1.isOccupiedAt (voxel 2 1))
      ∧ (∃ s4 c4, poseCallbacks exactLibrary exampleLoaded [poseA, poseB, poseB, poseB] = some s4
        ∧ s4._covered = some c4 ∧ (c4.search (voxel 2 1)).isSome = true
        ∧ ¬ c4.isOccupiedAt (voxel 2 1)) := by
  refine ⟨⟨_, _, rfl, rfl, by decide!⟩, ⟨_, _, rfl, rfl, by decide!, by decide!⟩⟩

/-! ### Keys and stored leaves -/

theorem coordToKeyChecked1_keyToCoord (resolution : ℚ) (hres : 0 < resolution) (k : Nat)
    (hk : k < 65536) : coordToKeyChecked1 resolution (keyToCoord resolution k) = some k := by
  unfold coordToKeyChecked1 keyToCoord tree_max_val
  have hne : resolution ≠ 0 := ne_of_gt hres
  have h1 : (1 / resolution) * ((((k : ℤ) - ((32768 : ℕ) : ℤ) : ℤ) + 1 / 2) * resolution)
      = (((k : ℤ) - 32768 : ℤ) : ℚ) + 1 / 2 := by
    field_simp
  have h2 : ⌊(((k : ℤ) - 32768 : ℤ) : ℚ) + 1 / 2⌋ = (k : ℤ) - 32768 := by
    rw [Int.floor_eq_iff]
    constructor <;> norm_num
  simp only [h1, h2]
  have h3 : (0 : ℤ) ≤ (k : ℤ) - 32768 + ((32768 : ℕ) : ℤ)
      ∧ (k : ℤ) - 32768 + ((32768 : ℕ) : ℤ) < 2 * ((32768 : ℕ) : ℤ) := by
    constructor <;> push_cast <;> omega
  rw [if_pos h3]
  congr 1
  push_cast
  omega

theorem coordToKeyChecked_keyToPoint (resolution : ℚ) (hres : 0 < resolution)
    (key : OcTreeKey) (hkey : key.valid) :
    coordToKeyChecked resolution (keyToPoint resolution key) = some key := by
  unfold coordToKeyChecked keyToPoint
  simp only [coordToKeyChecked1_keyToCoord resolution hres _ hkey.1,
    coordToKeyChecked1_keyToCoord resolution hres _ hkey.2.1,
    coordToKeyChecked1_keyToCoord resolution hres _ hkey.2.2]

theorem mem_of_searchLeaves (l : List (OcTreeKey × OcTreeNode)) (key : OcTreeKey)
    (n : OcTreeNode) (h : searchLeaves l key = some n) : (key, n) ∈ l := by
  induction l with
  | nil => simp [searchLeaves] at h
  | cons b rest ih =>
    rcases b with ⟨k, m⟩
    by_cases hk : k = key
    · subst hk
      simp [searchLeaves] at h
      subst h
      exact List.mem_cons_self _ _
    · simp [searchLeaves, hk] at h
      exact List.mem_cons_of_mem _ (ih h)

theorem searchLeaves_of_mem (l : List (OcTreeKey × OcTreeNode)) (key : OcTreeKey)
    (n : OcTreeNode) (hnodup : (l.map Prod.fst).Nodup) (h : (key, n) ∈ l) :
    searchLeaves l key = some n := by
  induction l with
  | nil => simp at h
  | cons b rest ih =>
    rcases b with ⟨k, m⟩
    simp only [List.map_cons, List.nodup_cons] at hnodup
    rcases List.mem_cons.mp h with h1 | h1
    · simp only [Prod.mk.injEq] at h1
      simp [searchLeaves, h1.1, h1.2]
    · have hne : k ≠ key := by
        intro he
        apply hnodup.1
        rw [he]
        exact List.mem_map_of_mem Prod.fst h1
      simp [searchLeaves, hne, ih hnodup.2 h1]

theorem mem_keys_iff (l : List (OcTreeKey × OcTreeNode)) (key : OcTreeKey) :
    key ∈ l.map Prod.fst ↔ (searchLeaves l key).isSome = true := by
  induction l with
  | nil => simp [searchLeaves]
  | cons b rest ih =>
    rcases b with ⟨k, m⟩
    by_cases hk : k = key
    · simp [searchLeaves, hk]
    · simp [searchLeaves, hk, ih, Ne.symm hk]

theorem keys_updateLeaves (l : List (OcTreeKey × OcTreeNode)) (key : OcTreeKey) (update : ℚ) :
    (updateLeaves l key update).map Prod.fst
      = if key ∈ l.map Prod.fst then l.map Prod.fst else l.map Prod.fst ++ [key] := by
  induction l with
  | nil => simp [updateLeaves]
  | cons b rest ih =>
    rcases b with ⟨k, m⟩
    by_cases hk : k = key
    · simp [updateLeaves, hk]
    · have hk1 : ¬ key = k := fun h => hk h.symm
      simp only [updateLeaves, hk, if_false, List.map_cons, ih, List.mem_cons, hk1, false_or]
      split_ifs <;> simp

theorem keys_setColorLeaves (l : List (OcTreeKey × OcTreeNode)) (key : OcTreeKey) (c : Color) :
    (setColorLeaves l key c).map Prod.fst = l.map Prod.fst := by
  induction l with
  | nil => rfl
  | cons b rest ih =>
    rcases b with ⟨k, m⟩
    by_cases hk : k = key
    · simp [setColorLeaves, hk]
    · simp [setColorLeaves, hk, ih]

theorem keys_applyOp (t : OcTree) (op : Op) :
    (t.applyOp op).keys
      = match op with
        | Op.update key _ => if key ∈ t.keys then t.keys else t.keys ++ [key]
        | Op.color _ _ => t.keys := by
  cases op with
  | color key c => exact keys_setColorLeaves t.leaves key c
  | update key occupied =>
    simp only [OcTree.applyOp, OcTree.updateNode, OcTree.keys]
    cases hs : t.search key with
    | none => exact keys_updateLeaves t.leaves key _
    | some leaf =>
      have hmem : key ∈ t.leaves.map Prod.fst := by
        rw [mem_keys_iff]
        have : searchLeaves t.leaves key = some leaf := hs
        simp [this]
      simp only []
      split_ifs <;> first | rfl | (rw [keys_updateLeaves, if_pos hmem])

theorem nodup_keys_applyOp (t : OcTree) (op : Op) (h : t.keys.Nodup) :
    (t.applyOp op).keys.Nodup := by
  rw [keys_applyOp]
  cases op with
  | color key c => exact h
  | update key occupied =>
    simp only []
    split_ifs with hm
    · exact h
    · exact List.Nodup.append h (List.nodup_singleton key) (by simpa using hm)

theorem nodup_keys_applyOps (t : OcTree) (ops : List Op) (h : t.keys.Nodup) :
    (t.applyOps ops).keys.Nodup := by
  induction ops generalizing t with
  | nil => exact h
  | cons op rest ih => exact ih (t.applyOp op) (nodup_keys_applyOp t op h)

/-! ### The exact ray cast meets the contracts -/

theorem addAt_valid (key : OcTreeKey) (i d : Nat) (h : key.valid) : (key.addAt i d).valid := by
  unfold OcTreeKey.valid at *
  unfold OcTreeKey.addAt
  split <;> simp only [] <;> refine ⟨?_, ?_, ?_⟩ <;> omega

theorem coordToKeyChecked1_lt (resolution c : ℚ) (k : Nat)
    (h : coordToKeyChecked1 resolution c = some k) : k < 65536 := by
  unfold coordToKeyChecked1 tree_max_val at h
  simp only [] at h
  split_ifs at h with hc
  simp only [Option.some.injEq] at h
  omega

theorem coordToKeyChecked_valid (resolution : ℚ) (p : Vec3) (key : OcTreeKey)
    (h : coordToKeyChecked resolution p = some key) : key.valid := by
  unfold coordToKeyChecked at h
  cases h0 : coordToKeyChecked1 resolution p.x with
  | none => simp [h0] at h
  | some a =>
    cases h1 : coordToKeyChecked1 resolution p.y with
    | none => simp [h0, h1] at h
    | some b =>
      cases h2 : coordToKeyChecked1 resolution p.z with
      | none => simp [h0, h1, h2] at h
      | some c =>
        simp only [h0, h1, h2, Option.some.injEq] at h
        subst h
        exact ⟨coordToKeyChecked1_lt _ _ _ h0, coordToKeyChecked1_lt _ _ _ h1,
          coordToKeyChecked1_lt _ _ _ h2⟩

theorem castRayLoop_hits (t : OcTree) (origin d : Vec3) (maxRange : ℚ) (fuel : Nat) :
    ∀ (key : OcTreeKey) (tMax : TMax) (p : Vec3), key.valid →
      castRayLoop t origin d maxRange fuel key tMax = some p →
      ∃ key1 : OcTreeKey, key1.valid ∧ t.isOccupiedAt key1 ∧ p = keyToPoint t.resolution key1
        ∧ (0 < maxRange → ¬ maxRange * maxRange < normSq origin p) := by
  induction fuel with
  | zero => intro key tMax p _ h; simp [castRayLoop] at h
  | succ fuel ih =>
    intro key tMax p hvalid h
    rw [castRayLoop] at h
    simp only [] at h
    split_ifs at h with h1 h2
    have hv1 : (key.step tMax.dim (stepOf (d.get tMax.dim))).valid := addAt_valid _ _ _ hvalid
    cases hs : t.search (key.step tMax.dim (stepOf (d.get tMax.dim))) with
    | none =>
      simp only [hs] at h
      exact ih _ _ _ hv1 h
    | some node =>
      simp only [hs] at h
      split_ifs at h with hocc
      · simp only [Option.some.injEq] at h
        refine ⟨_, hv1, ?_, h.symm, ?_⟩
        · simp [OcTree.isOccupiedAt, hs, hocc]
        · intro hpos hlt
          exact h2 ⟨hpos, h ▸ hlt⟩
      · exact ih _ _ _ hv1 h

theorem exactLibrary_castHitsOccupied (t : OcTree) : exactLibrary.CastHitsOccupied t := by
  intro origin direction maxRange p h
  have h' : castRayExact t origin direction maxRange = some p := h
  unfold castRayExact at h'
  cases hk : coordToKeyChecked t.resolution origin with
  | none => simp [hk] at h'
  | some key =>
    have hvalid := coordToKeyChecked_valid _ _ _ hk
    simp only [hk] at h'
    cases hs : t.search key with
    | none =>
      simp only [hs] at h'
      split_ifs at h'
      obtain ⟨key1, h1, h2, h3, _⟩ := castRayLoop_hits t origin direction maxRange _ _ _ _ hvalid h'
      exact ⟨key1, h1, h2, h3⟩
    | some node =>
      simp only [hs] at h'
      split_ifs at h' with hocc hz
      · simp only [Option.some.injEq] at h'
        exact ⟨key, hvalid, by simp [OcTree.isOccupiedAt, hs, hocc], h'.symm⟩
      · obtain ⟨key1, h1, h2, h3, _⟩ :=
          castRayLoop_hits t origin direction maxRange _ _ _ _ hvalid h'
        exact ⟨key1, h1, h2, h3⟩

theorem exactLibrary_castWithinRange_of_free_start (t : OcTree) (position : Vec3) (range : ℚ)
    (key : OcTreeKey) (hrange : 0 < range)
    (hkey : coordToKeyChecked t.resolution position = some key)
    (hfree : ¬ t.isOccupiedAt key) :
    exactLibrary.CastWithinRange t position range := by
  intro direction p h
  have h' : castRayExact t position direction range = some p := h
  unfold castRayExact at h'
  have hvalid := coordToKeyChecked_valid _ _ _ hkey
  simp only [hkey] at h'
  have hloop : castRayLoop t position direction range (6 * tree_max_val) key
      (TMax.init t.resolution key position direction) = some p := by
    cases hs : t.search key with
    | none =>
      simp only [hs] at h'
      split_ifs at h'
      exact h'
    | some node =>
      simp only [hs] at h'
      have hnocc : ¬ isNodeOccupied node := by
        simpa [OcTree.isOccupiedAt, hs] using hfree
      simp only [hnocc, if_false] at h'
      split_ifs at h'
      exact h'
  obtain ⟨_, _, _, _, hw⟩ := castRayLoop_hits t position direction range _ _ _ _ hvalid hloop
  unfold normExceeds
  rintro (hneg | hlt)
  · linarith
  · exact hw hrange hlt

/-! ### Covered volume against the environment volume -/

theorem sum_map_ite_const {α : Type} (p : α → Prop) [DecidablePred p] (c : ℚ) (l : List α) :
    (l.map (fun a => if p a then c else 0)).sum
      = c * ((l.filter (fun a => decide (p a))).length : ℚ) := by
  induction l with
  | nil => simp
  | cons a rest ih =>
    by_cases h : p a
    · simp [List.filter_cons, h, ih]; ring
    · simp [List.filter_cons, h, ih]

theorem leafVolumeColorOcTree_eq (cfg : Config) (t : OcTree) (leaf : OcTreeKey × OcTreeNode) :
    leafVolumeColorOcTree cfg t leaf
      = if ¬ outOfBand cfg (keyToCoord t.resolution leaf.1.k2) ∧ isNodeOccupied leaf.2 then
          t.resolution * t.resolution * t.resolution
        else 0 := by
  unfold leafVolumeColorOcTree
  by_cases h1 : outOfBand cfg (keyToCoord t.resolution leaf.1.k2)
  · simp [h1]
  · by_cases h2 : isNodeOccupied leaf.2 <;> simp [h1, h2]

theorem calculateOccupiedVolumeColorOcTree_eq_count (cfg : Config) (t : OcTree) :
    calculateOccupiedVolumeColorOcTree cfg t
      = t.resolution * t.resolution * t.resolution
        * ((t.leaves.filter (fun leaf => decide
            (¬ outOfBand cfg (keyToCoord t.resolution leaf.1.k2) ∧ isNodeOccupied leaf.2))).length
            : ℚ) := by
  rw [calculateOccupiedVolumeColorOcTree_eq_sum]
  have h : leafVolumeColorOcTree cfg t
      = fun leaf => if ¬ outOfBand cfg (keyToCoord t.resolution leaf.1.k2)
          ∧ isNodeOccupied leaf.2 then t.resolution * t.resolution * t.resolution else 0 := by
    funext leaf
    exact leafVolumeColorOcTree_eq cfg t leaf
  rw [h]
  exact sum_map_ite_const _ _ _

theorem isOccupiedAt_of_mem (t : OcTree) (hnodup : t.keys.Nodup) (key : OcTreeKey)
    (n : OcTreeNode) (hmem : (key, n) ∈ t.leaves) (hocc : isNodeOccupied n) :
    t.isOccupiedAt key := by
  unfold OcTree.isOccupiedAt OcTree.search
  rw [searchLeaves_of_mem t.leaves key n hnodup hmem]
  exact hocc

theorem exists_mem_of_isOccupiedAt (t : OcTree) (key : OcTreeKey) (h : t.isOccupiedAt key) :
    ∃ n, (key, n) ∈ t.leaves ∧ isNodeOccupied n := by
  unfold OcTree.isOccupiedAt at h
  cases hs : t.search key with
  | none => simp [hs] at h
  | some n =>
    simp only [hs] at h
    exact ⟨n, mem_of_searchLeaves t.leaves key n hs, h⟩

theorem volume_le_of_occupied_subset (cfg : Config) (c octomap : OcTree)
    (hres : c.resolution = octomap.resolution) (hpos : 0 ≤ octomap.resolution)
    (hnodup : c.keys.Nodup)
    (hsub : ∀ key, c.isOccupiedAt key → octomap.isOccupiedAt key) :
    0 ≤ calculateOccupiedVolumeColorOcTree cfg c
      ∧ calculateOccupiedVolumeColorOcTree cfg c
          ≤ calculateOccupiedVolumeColorOcTree cfg octomap := by
  rw [calculateOccupiedVolumeColorOcTree_eq_count, calculateOccupiedVolumeColorOcTree_eq_count,
    hres]
  have hcube : 0 ≤ octomap.resolution * octomap.resolution * octomap.resolution :=
    mul_nonneg (mul_nonneg hpos hpos) hpos
  refine ⟨mul_nonneg hcube (Nat.cast_nonneg _), ?_⟩
  apply mul_le_mul_of_nonneg_left _ hcube
  have hA : ((c.leaves.filter (fun leaf => decide
      (¬ outOfBand cfg (keyToCoord octomap.resolution leaf.1.k2)
        ∧ isNodeOccupied leaf.2))).map Prod.fst).Nodup :=
    List.Nodup.sublist (List.Sublist.map Prod.fst (List.filter_sublist _)) hnodup
  have hsubset : (c.leaves.filter (fun leaf => decide
      (¬ outOfBand cfg (keyToCoord octomap.resolution leaf.1.k2)
        ∧ isNodeOccupied leaf.2))).map Prod.fst
      ⊆ (octomap.leaves.filter (fun leaf => decide
      (¬ outOfBand cfg (keyToCoord octomap.resolution leaf.1.k2)
        ∧ isNodeOccupied leaf.2))).map Prod.fst := by
    intro key hkey
    rw [List.mem_map] at hkey
    obtain ⟨leaf, hleaf, hfst⟩ := hkey
    rw [List.mem_filter] at hleaf
    have hP := of_decide_eq_true hleaf.2
    rcases leaf with ⟨k, n⟩
    simp only at hfst
    subst hfst
    obtain ⟨n1, hn1, hocc1⟩ := exists_mem_of_isOccupiedAt octomap k
      (hsub k (isOccupiedAt_of_mem c hnodup k n hleaf.1 hP.2))
    rw [List.mem_map]
    refine ⟨(k, n1), ?_, rfl⟩
    rw [List.mem_filter]
    exact ⟨hn1, decide_eq_true ⟨hP.1, hocc1⟩⟩
  have hlen := (List.subperm_of_subset hA hsubset).length_le
  simp only [List.length_map] at hlen
  exact_mod_cast hlen

theorem stepValue_miss_nonneg (v : ℚ) (h : occ_prob_thres_log ≤ stepValue false v) :
    0 < v := by
  unfold stepValue updateNodeLogOdds at h
  simp only [Bool.false_eq_true, if_false, occ_prob_thres_log, prob_hit_log, prob_miss_log,
    clamping_thres_max, clamping_thres_min] at h
  norm_num at h
  split_ifs at h <;> linarith

theorem isSome_of_valueAt_pos (t : OcTree) (key : OcTreeKey) (h : 0 < t.valueAt key) :
    (t.search key).isSome = true := by
  unfold OcTree.valueAt at h
  cases hs : t.search key with
  | none => simp [hs] at h
  | some n => rfl

theorem occupied_subset_applyOp (c octomap : OcTree) (op : Op)
    (hsub : ∀ key, c.isOccupiedAt key → octomap.isOccupiedAt key)
    (hop : ∀ key, op = Op.update key true → octomap.isOccupiedAt key) :
    ∀ key, (c.applyOp op).isOccupiedAt key → octomap.isOccupiedAt key := by
  intro key hocc
  rw [isOccupiedAt_iff, isSome_search_applyOp, valueAt_applyOp] at hocc
  cases op with
  | color key1 col =>
    apply hsub
    rw [isOccupiedAt_iff]
    simpa [Op.updates, Op.valueStep] using hocc
  | update key1 occupied =>
    by_cases hk : key1 = key
    · subst hk
      cases occupied with
      | true => exact hop key1 rfl
      | false =>
        apply hsub
        have hv : occ_prob_thres_log ≤ stepValue false (c.valueAt key1) := by
          simpa [Op.valueStep] using hocc.2
        have hpos := stepValue_miss_nonneg _ hv
        rw [isOccupiedAt_iff]
        exact ⟨isSome_of_valueAt_pos c key1 hpos, by simp only [occ_prob_thres_log]; linarith⟩
    · apply hsub
      rw [isOccupiedAt_iff]
      simpa [Op.updates, Op.valueStep, hk] using hocc

theorem occupied_subset_applyOps (octomap : OcTree) (ops : List Op) (c : OcTree)
    (hsub : ∀ key, c.isOccupiedAt key → octomap.isOccupiedAt key)
    (hops : ∀ op ∈ ops, ∀ key, op = Op.update key true → octomap.isOccupiedAt key) :
    ∀ key, (c.applyOps ops).isOccupiedAt key → octomap.isOccupiedAt key := by
  induction ops generalizing c with
  | nil => exact hsub
  | cons op rest ih =>
    exact ih (c.applyOp op)
      (occupied_subset_applyOp c octomap op hsub (hops op (List.mem_cons_self _ _)))
      (fun op1 h1 => hops op1 (List.mem_cons_of_mem _ h1))

theorem mem_missOps (L : Library) (resolution : ℚ) (origin end_ : Vec3) (op : Op)
    (h : op ∈ (missOps L resolution origin end_).1) : ∃ key, op = Op.update key false := by
  unfold missOps at h
  cases hc : L.computeRayKeys resolution origin end_ with
  | none => simp [hc] at h
  | some ray =>
    simp only [hc, List.mem_map] at h
    obtain ⟨key, _, hk⟩ := h
    exact ⟨key, hk.symm⟩

theorem mem_hitOps (resolution : ℚ) (p : Vec3) (op : Op) (h : op ∈ hitOps resolution p) :
    ∃ key, coordToKeyChecked resolution p = some key ∧ op = Op.update key true := by
  unfold hitOps at h
  cases hc : coordToKeyChecked resolution p with
  | none => simp [hc] at h
  | some key =>
    simp only [hc, List.mem_singleton] at h
    exact ⟨key, rfl, h⟩

theorem mem_colorOps (resolution : ℚ) (p : Vec3) (c : Color) (op : Op)
    (h : op ∈ colorOps resolution p c) : ∃ key, op = Op.color key c := by
  unfold colorOps at h
  cases hc : coordToKeyChecked resolution p with
  | none => simp [hc] at h
  | some key =>
    simp only [hc, List.mem_singleton] at h
    exact ⟨key, h⟩

theorem mem_insertRayOps (L : Library) (resolution : ℚ) (origin end_ : Vec3) (maxrange : ℚ)
    (op : Op) (h : op ∈ (insertRayOps L resolution origin end_ maxrange).1) :
    (∃ key, op = Op.update key false) ∨ op ∈ hitOps resolution end_ := by
  unfold insertRayOps at h
  split_ifs at h with hc
  · exact Or.inl (mem_missOps L resolution origin _ op h)
  · rcases hm : missOps L resolution origin end_ with ⟨ops, b⟩
    have hmem : ∀ op1 ∈ ops, ∃ key, op1 = Op.update key false := by
      intro op1 h1
      apply mem_missOps L resolution origin end_ op1
      rw [hm]; exact h1
    rw [hm] at h
    cases b with
    | false => exact Or.inl (hmem op h)
    | true =>
      simp only [List.mem_append] at h
      rcases h with h | h
      · exact Or.inl (hmem op h)
      · exact Or.inr h

theorem hit_of_mem_orthogonalBodyOps (L : Library) (cfg : Config) (octomap : OcTree)
    (resolution : ℚ) (position : Vec3) (horizontal vertical : ℚ) (op : Op) (key : OcTreeKey)
    (h : op ∈ orthogonalBodyOps L cfg octomap resolution position horizontal vertical)
    (hop : op = Op.update key true) :
    ∃ direction p, L.castRay octomap position direction cfg._rfid_range = some p
      ∧ ¬ outOfBand cfg p.z ∧ coordToKeyChecked resolution p = some key := by
  unfold orthogonalBodyOps at h
  cases hc : L.castRay octomap position (L.rotate_IP cfg.direction 0 vertical horizontal)
      cfg._rfid_range with
  | none => simp [hc] at h
  | some wall_point =>
    simp only [hc] at h
    split_ifs at h with hb
    · simp at h
    · have hins : op ∈ (insertRayOps L resolution position wall_point cfg._rfid_range).1
          ∨ op ∈ colorOps resolution wall_point orthogonalColor := by
        rcases hm : insertRayOps L resolution position wall_point cfg._rfid_range with ⟨ops, b⟩
        rw [hm] at h
        cases b with
        | false => exact Or.inl h
        | true => simpa using h
      rcases hins with h1 | h1
      · rcases mem_insertRayOps L resolution position wall_point _ op h1 with ⟨k, hk⟩ | h2
        · rw [hop] at hk; simp at hk
        · obtain ⟨k, hk, hk2⟩ := mem_hitOps resolution wall_point op h2
          rw [hop] at hk2
          simp only [Op.update.injEq, and_true] at hk2
          exact ⟨_, wall_point, hc, hb, hk2 ▸ hk⟩
      · obtain ⟨k, hk⟩ := mem_colorOps resolution wall_point _ op h1
        rw [hop] at hk; simp at hk

theorem hit_of_mem_circularBodyOps (L : Library) (cfg : Config) (octomap : OcTree)
    (resolution : ℚ) (position : Vec3) (horizontal vertical : ℚ) (op : Op) (key : OcTreeKey)
    (h : op ∈ circularBodyOps L cfg octomap resolution position horizontal vertical)
    (hop : op = Op.update key true) :
    ∃ direction p, L.castRay octomap position direction cfg._rfid_range = some p
      ∧ ¬ outOfBand cfg p.z ∧ coordToKeyChecked resolution p = some key := by
  unfold circularBodyOps at h
  cases hc : L.castRay octomap position (L.rotate_IP cfg.direction 0 vertical horizontal)
      cfg._rfid_range with
  | none => simp [hc] at h
  | some wall_point =>
    simp only [hc] at h
    split_ifs at h with hb hxy
    · simp at h
    · simp at h
    · have hins : op ∈ (insertRayOps L resolution position wall_point cfg._rfid_range).1
          ∨ op ∈ colorOps resolution wall_point circularColor := by
        rcases hm : insertRayOps L resolution position wall_point cfg._rfid_range with ⟨ops, b⟩
        rw [hm] at h
        cases b with
        | false => exact Or.inl h
        | true => simpa using h
      rcases hins with h1 | h1
      · rcases mem_insertRayOps L resolution position wall_point _ op h1 with ⟨k, hk⟩ | h2
        · rw [hop] at hk; simp at hk
        · obtain ⟨k, hk, hk2⟩ := mem_hitOps resolution wall_point op h2
          rw [hop] at hk2
          simp only [Op.update.injEq, and_true] at hk2
          exact ⟨_, wall_point, hc, hb, hk2 ▸ hk⟩
      · obtain ⟨k, hk⟩ := mem_colorOps resolution wall_point _ op h1
        rw [hop] at hk; simp at hk

theorem hit_of_mem_poseOps (L : Library) (cfg : Config) (octomap : OcTree)
    (resolution : ℚ) (pose : Pose) (op : Op) (key : OcTreeKey)
    (h : op ∈ poseOps L cfg octomap resolution pose) (hop : op = Op.update key true) :
    ∃ direction p, L.castRay octomap pose.position direction cfg._rfid_range = some p
      ∧ ¬ outOfBand cfg p.z ∧ coordToKeyChecked resolution p = some key := by
  unfold poseOps at h
  split_ifs at h
  · unfold circularOps at h
    rw [List.mem_flatMap] at h
    obtain ⟨hv, _, hmem⟩ := h
    exact hit_of_mem_circularBodyOps L cfg octomap resolution pose.position _ _ op key hmem hop
  · unfold orthogonalOps at h
    rw [List.mem_flatMap] at h
    obtain ⟨hv, _, hmem⟩ := h
    exact hit_of_mem_orthogonalBodyOps L cfg octomap resolution pose.position _ _ op key hmem hop

theorem hit_occupied_of_mem_poseOps (L : Library) (cfg : Config) (octomap : OcTree)
    (pose : Pose) (hres : 0 < octomap.resolution) (hcast : L.CastHitsOccupied octomap) :
    ∀ op ∈ poseOps L cfg octomap octomap.resolution pose,
      ∀ key, op = Op.update key true → octomap.isOccupiedAt key := by
  intro op hmem key hop
  obtain ⟨direction, p, hp, _, hkey⟩ :=
    hit_of_mem_poseOps L cfg octomap octomap.resolution pose op key hmem hop
  obtain ⟨key1, hvalid, hocc, hpoint⟩ := hcast _ _ _ _ hp
  rw [hpoint, coordToKeyChecked_keyToPoint octomap.resolution hres key1 hvalid] at hkey
  exact (Option.some.inj hkey) ▸ hocc

theorem run_occupied_subset (L : Library) (cfg : Config) (octomap : OcTree)
    (hres : 0 < octomap.resolution) (hcast : L.CastHitsOccupied octomap) (poses : List Pose) :
    ∀ (s s1 : OnlineCoverage) (c : OcTree), s.cfg = cfg → s._octomap = some octomap →
      s._octomap_loaded = true → s._covered = some c → c.resolution = octomap.resolution →
      c.keys.Nodup → (∀ key, c.isOccupiedAt key → octomap.isOccupiedAt key) →
      poseCallbacks L s poses = some s1 →
      ∃ c1, s1._covered = some c1 ∧ c1.resolution = octomap.resolution ∧ c1.keys.Nodup
        ∧ (∀ key, c1.isOccupiedAt key → octomap.isOccupiedAt key)
        ∧ s1.cfg = cfg ∧ s1._octomap_volume = s._octomap_volume := by
  induction poses with
  | nil =>
    intro s s1 c hcfg _ _ hcov hr hn hsub hrun
    simp only [poseCallbacks, Option.some.injEq] at hrun
    subst hrun
    exact ⟨c, hcov, hr, hn, hsub, hcfg, rfl⟩
  | cons pose rest ih =>
    intro s s1 c hcfg hmap hloaded hcov hr hn hsub hrun
    simp only [poseCallbacks, calculateCoverage_eq_applyOps L s octomap c pose hloaded hmap hcov]
      at hrun
    have := ih ⟨s.cfg, s._octomap, some (c.applyOps (poseOps L s.cfg octomap c.resolution pose)),
        s._octomap_resolution, s._octomap_volume, s._octomap_loaded⟩ s1
      (c.applyOps (poseOps L s.cfg octomap c.resolution pose)) hcfg hmap hloaded rfl
      (by rw [applyOps_resolution, hr]) (nodup_keys_applyOps c _ hn)
      (occupied_subset_applyOps octomap _ c hsub
        (by rw [hr]; exact hit_occupied_of_mem_poseOps L s.cfg octomap pose hres hcast))
      hrun
    exact this

/-- C3 (amended).  After an environment with positive resolution has been
loaded and any sequence of pose updates processed, with a ray cast that reports
centres of occupied environment voxels, the covered volume is non-negative and
at most the volume of the environment counted without denoising (the coverage
variant applied to the environment), while the cached volume is the denoised
one; so for a positive cached volume the percentage lies between `0` and `100`
times the ratio of the undenoised to the denoised environment volume. -/
theorem covered_volume_le_undenoised_volume (L : Library) (s s1 : OnlineCoverage)
    (octomap covered1 : OcTree) (poses : List Pose)
    (hres : 0 < octomap.resolution) (hcast : L.CastHitsOccupied octomap)
    (hrun : poseCallbacks L (octomapCallback s (some (AbstractOcTree.colorOcTree octomap))) poses
      = some s1)
    (hcov : s1._covered = some covered1) :
    0 ≤ calculateOccupiedVolumeColorOcTree s.cfg covered1
      ∧ calculateOccupiedVolumeColorOcTree s.cfg covered1
          ≤ calculateOccupiedVolumeColorOcTree s.cfg octomap
      ∧ s1._octomap_volume = calculateOccupiedVolumeOcTree s.cfg octomap
      ∧ (0 < s1._octomap_volume →
          (publishPercentage s1 covered1).2
              = FloatVal.finite (100 * calculateOccupiedVolumeColorOcTree s.cfg covered1
                  / s1._octomap_volume)
            ∧ 0 ≤ 100 * calculateOccupiedVolumeColorOcTree s.cfg covered1 / s1._octomap_volume
            ∧ 100 * calculateOccupiedVolumeColorOcTree s.cfg covered1 / s1._octomap_volume
                ≤ 100 * calculateOccupiedVolumeColorOcTree s.cfg octomap
                    / s1._octomap_volume) := by
  obtain ⟨c1, hc1, hr1, hn1, hsub1, hcfg1, hvol1⟩ :=
    run_occupied_subset L s.cfg octomap hres hcast poses
      (octomapCallback s (some (AbstractOcTree.colorOcTree octomap))) s1
      (OcTree.empty octomap.resolution) rfl rfl rfl rfl rfl (by simp [OcTree.keys, OcTree.empty])
      (by intro key h; simp [OcTree.isOccupiedAt, OcTree.search, OcTree.empty, searchLeaves] at h)
      hrun
  rw [hcov] at hc1
  have hcc : covered1 = c1 := Option.some.inj hc1
  subst hcc
  have hb := volume_le_of_occupied_subset s.cfg covered1 octomap hr1 (le_of_lt hres) hn1 hsub1
  refine ⟨hb.1, hb.2, hvol1, ?_⟩
  intro hpos
  have hp := publishPercentage_snd s1 covered1
  rw [if_neg (ne_of_gt hpos), hcfg1] at hp
  refine ⟨hp, ?_, ?_⟩
  · exact div_nonneg (mul_nonneg (by norm_num) hb.1) (le_of_lt hpos)
  · exact div_le_div_of_nonneg_right (mul_le_mul_of_nonneg_left hb.2 (by norm_num))
      (le_of_lt hpos)

/-- C3 (witness).  After `poseA` and `poseB` on `exampleMap` the covered volume
`2` is at most the undenoised environment volume `2`, and the percentage `200`
is at most `100 * 2 / 1`. -/
theorem covered_volume_le_undenoised_volume_witness :
    poseCallbacks exactLibrary
        (octomapCallback (OnlineCoverage.init exampleConfig)
          (some (AbstractOcTree.colorOcTree exampleMap))) [poseA, poseB]
        = some (exampleWith coveredAB)
      ∧ 0 ≤ calculateOccupiedVolumeColorOcTree exampleConfig coveredAB
      ∧ calculateOccupiedVolumeColorOcTree exampleConfig coveredAB
          ≤ calculateOccupiedVolumeColorOcTree exampleConfig exampleMap
      ∧ calculateOccupiedVolumeColorOcTree exampleConfig exampleMap = 2
      ∧ (exampleWith coveredAB)._octomap_volume = 1
      ∧ (publishPercentage (exampleWith coveredAB) coveredAB).2
          = FloatVal.finite (100 * calculateOccupiedVolumeColorOcTree exampleConfig coveredAB
              / (exampleWith coveredAB)._octomap_volume) :=
  have h := covered_volume_le_undenoised_volume exactLibrary (OnlineCoverage.init exampleConfig)
    (exampleWith coveredAB) exampleMap coveredAB [poseA, poseB] (by decide!)
    (exactLibrary_castHitsOccupied exampleMap) (by decide!) rfl
  ⟨by decide!, h.1, h.2.1, by decide!, by decide!, (h.2.2.2 (by decide!)).1⟩

/-- C3 (counterexample).  With `exampleMap` loaded the cached volume is `1`,
because the denoise heuristic leaves `voxel 2 1` out, and after the poses `poseA`
and `poseB` both voxels are covered: the covered volume is `2` and the published
percentage is `200`. -/
theorem percentage_exceeds_hundred :
    exampleLoaded._octomap_volume = 1
      ∧ 0 < exampleLoaded._octomap_volume
      ∧ ∃ s2 c2, poseCallbacks exactLibrary exampleLoaded [poseA, poseB] = some s2
          ∧ s2._covered = some c2
          ∧ publishPercentage s2 c2 = (2, FloatVal.finite 200) := by
  refine ⟨by decide!, by decide!, _, _, rfl, rfl, by decide!⟩

/-! ### Circular against orthogonal coverage -/

theorem planar_le_spatial (a b : Vec3) (r : ℚ) (h : ¬ normExceeds a b r) :
    ¬ distanceXYExceeds a b r := by
  unfold normExceeds at h
  unfold distanceXYExceeds
  push_neg at h ⊢
  refine ⟨h.1, ?_⟩
  have hz : 0 ≤ (b.z - a.z) * (b.z - a.z) := mul_self_nonneg _
  unfold normSq at h
  unfold distanceXYSq
  linarith [h.2]

theorem circularBodyOps_eq_map (L : Library) (cfg : Config) (octomap : OcTree)
    (resolution : ℚ) (position : Vec3) (horizontal vertical : ℚ)
    (hrange : L.CastWithinRange octomap position cfg._rfid_range) :
    circularBodyOps L cfg octomap resolution position horizontal vertical
      = (orthogonalBodyOps L cfg octomap resolution position horizontal vertical).map
          Op.recolorCircular := by
  unfold circularBodyOps orthogonalBodyOps
  cases hc : L.castRay octomap position (L.rotate_IP cfg.direction 0 vertical horizontal)
      cfg._rfid_range with
  | none => rfl
  | some wall_point =>
    simp only []
    have hxy := planar_le_spatial _ _ _ (hrange _ _ hc)
    rw [if_neg hxy]
    split_ifs with hb
    · rfl
    · have hmap : ∀ ops : List Op, (∀ op ∈ ops, ∃ key occupied, op = Op.update key occupied) →
          ops.map Op.recolorCircular = ops := by
        intro ops hops
        induction ops with
        | nil => rfl
        | cons op rest ih =>
          obtain ⟨key, occupied, hop⟩ := hops op (List.mem_cons_self _ _)
          rw [List.map_cons, ih (fun o ho => hops o (List.mem_cons_of_mem _ ho)), hop]
          rfl
      have hins : ∀ op ∈ (insertRayOps L resolution position wall_point cfg._rfid_range).1,
          ∃ key occupied, op = Op.update key occupied := by
        intro op hop
        rcases mem_insertRayOps L resolution position wall_point _ op hop with ⟨k, hk⟩ | h2
        · exact ⟨k, false, hk⟩
        · obtain ⟨k, _, hk⟩ := mem_hitOps resolution wall_point op h2
          exact ⟨k, true, hk⟩
      rcases hm : insertRayOps L resolution position wall_point cfg._rfid_range with ⟨ops, b⟩
      rw [hm] at hins
      cases b with
      | false => exact (hmap ops hins).symm
      | true =>
        simp only [List.map_append, hmap ops hins]
        congr 1
        unfold colorOps
        cases coordToKeyChecked resolution wall_point <;> rfl

theorem circularOps_eq_map (L : Library) (cfg : Config) (octomap : OcTree)
    (resolution : ℚ) (pose : Pose)
    (hrange : L.CastWithinRange octomap pose.position cfg._rfid_range) :
    circularOps L cfg octomap resolution pose
      = (orthogonalOps L cfg octomap resolution pose).map Op.recolorCircular := by
  unfold circularOps orthogonalOps
  rw [List.map_flatMap]
  congr 1
  funext hv
  exact circularBodyOps_eq_map L cfg octomap resolution pose.position hv.1 hv.2 hrange

theorem searchLeaves_map_erase (l : List (OcTreeKey × OcTreeNode)) (key : OcTreeKey) :
    searchLeaves (l.map (fun leaf => (leaf.1, { leaf.2 with color := defaultColor }))) key
      = (searchLeaves l key).map (fun n => { n with color := defaultColor }) := by
  induction l with
  | nil => rfl
  | cons b rest ih =>
    rcases b with ⟨k, n⟩
    by_cases h : k = key
    · simp [searchLeaves, h]
    · simp [searchLeaves, h, ih]

theorem updateLeaves_map_erase (l : List (OcTreeKey × OcTreeNode)) (key : OcTreeKey)
    (update : ℚ) :
    (updateLeaves l key update).map (fun leaf => (leaf.1, { leaf.2 with color := defaultColor }))
      = updateLeaves (l.map (fun leaf => (leaf.1, { leaf.2 with color := defaultColor })))
          key update := by
  induction l with
  | nil => rfl
  | cons b rest ih =>
    rcases b with ⟨k, n⟩
    by_cases h : k = key
    · simp [updateLeaves, h]
    · simp [updateLeaves, h, ih]

theorem setColorLeaves_map_erase (l : List (OcTreeKey × OcTreeNode)) (key : OcTreeKey)
    (c : Color) :
    (setColorLeaves l key c).map (fun leaf => (leaf.1, { leaf.2 with color := defaultColor }))
      = l.map (fun leaf => (leaf.1, { leaf.2 with color := defaultColor })) := by
  induction l with
  | nil => rfl
  | cons b rest ih =>
    rcases b with ⟨k, n⟩
    by_cases h : k = key
    · simp [setColorLeaves, h]
    · simp [setColorLeaves, h, ih]

theorem eraseColors_updateNode (t : OcTree) (key : OcTreeKey) (occupied : Bool) :
    (t.updateNode key occupied).eraseColors = t.eraseColors.updateNode key occupied := by
  unfold OcTree.updateNode
  have hs : t.eraseColors.search key
      = (t.search key).map (fun n => { n with color := defaultColor }) :=
    searchLeaves_map_erase t.leaves key
  rw [hs]
  cases t.search key with
  | none =>
    simp only [Option.map_none', OcTree.eraseColors, updateLeaves_map_erase]
  | some leaf =>
    simp only [Option.map_some']
    split_ifs
    · rfl
    · simp only [OcTree.eraseColors, updateLeaves_map_erase]
    · rfl
    · simp only [OcTree.eraseColors, updateLeaves_map_erase]

theorem eraseColors_applyOp (t : OcTree) (op : Op) :
    (t.applyOp op).eraseColors
      = match op with
        | Op.update key occupied => t.eraseColors.updateNode key occupied
        | Op.color _ _ => t.eraseColors := by
  cases op with
  | update key occupied => exact eraseColors_updateNode t key occupied
  | color key c =>
    simp only [OcTree.applyOp, OcTree.eraseColors, setColorLeaves_map_erase]

theorem eraseColors_applyOps_recolor (ops : List Op) (t t1 : OcTree)
    (h : t.eraseColors = t1.eraseColors) :
    (t.applyOps (ops.map Op.recolorCircular)).eraseColors = (t1.applyOps ops).eraseColors := by
  induction ops generalizing t t1 with
  | nil => exact h
  | cons op rest ih =>
    apply ih
    rw [eraseColors_applyOp, eraseColors_applyOp]
    cases op with
    | update key occupied => simp only [Op.recolorCircular, h]
    | color key c => simp only [Op.recolorCircular, h]

/-- C10.  When the ray cast from the sensor position, bounded by the sensor
range, only reports hits within that range, the planar test of the circular
method rejects no hit: the circular method makes the same node updates as the
orthogonal method, in the same order, except that it writes its own colour, and
the two resulting coverage trees are equal once colours are disregarded. -/
theorem circular_eq_orthogonal_up_to_color (L : Library) (cfg : Config)
    (octomap covered : OcTree) (pose : Pose)
    (hrange : L.CastWithinRange octomap pose.position cfg._rfid_range) :
    (∀ (direction p : Vec3), L.castRay octomap pose.position direction cfg._rfid_range = some p →
        ¬ distanceXYExceeds pose.position p cfg._rfid_range)
      ∧ circularOps L cfg octomap covered.resolution pose
        = (orthogonalOps L cfg octomap covered.resolution pose).map Op.recolorCircular
      ∧ (calculateCircularCoverage L cfg octomap covered pose).eraseColors
        = (calculateOrthogonalCoverage L cfg octomap covered pose).eraseColors := by
  refine ⟨fun direction p hp => planar_le_spatial _ _ _ (hrange direction p hp),
    circularOps_eq_map L cfg octomap covered.resolution pose hrange, ?_⟩
  rw [calculateCircularCoverage_eq_applyOps, calculateOrthogonalCoverage_eq_applyOps,
    circularOps_eq_map L cfg octomap covered.resolution pose hrange]
  exact eraseColors_applyOps_recolor _ covered covered rfl

/-- C10 (witness).  From the position of `poseA`, outside the occupied voxels
of `exampleMap`, the exact ray cast with range `10` reports hits within the
range only. -/
theorem circular_eq_orthogonal_up_to_color_witness :
    (∀ (direction p : Vec3),
        exactLibrary.castRay exampleMap poseA.position direction exampleConfig._rfid_range
            = some p →
          ¬ distanceXYExceeds poseA.position p exampleConfig._rfid_range)
      ∧ circularOps exactLibrary exampleConfig exampleMap (OcTree.empty 1).resolution poseA
        = (orthogonalOps exactLibrary exampleConfig exampleMap (OcTree.empty 1).resolution
            poseA).map Op.recolorCircular
      ∧ (calculateCircularCoverage exactLibrary exampleConfig exampleMap (OcTree.empty 1)
            poseA).eraseColors
        = (calculateOrthogonalCoverage exactLibrary exampleConfig exampleMap (OcTree.empty 1)
            poseA).eraseColors :=
  circular_eq_orthogonal_up_to_color exactLibrary exampleConfig exampleMap (OcTree.empty 1)
    poseA (exactLibrary_castWithinRange_of_free_start exampleMap poseA.position 10
      (voxel 0 1) (by norm_num) (by decide!) (by decide!))


/-! ### Processing a pose twice -/

theorem stepValue_mono (occupied : Bool) (v w : ℚ) (h : v ≤ w) :
    stepValue occupied v ≤ stepValue occupied w := by
  unfold stepValue updateNodeLogOdds
  cases occupied
  · simp only [Bool.false_eq_true, if_false, prob_hit_log, prob_miss_log,
      clamping_thres_max, clamping_thres_min]
    norm_num
    split_ifs <;> linarith
  · simp only [if_true, prob_hit_log, prob_miss_log,
      clamping_thres_max, clamping_thres_min]
    norm_num
    split_ifs <;> linarith

theorem valueStep_mono (op : Op) (key : OcTreeKey) (v w : ℚ) (h : v ≤ w) :
    op.valueStep key v ≤ op.valueStep key w := by
  cases op with
  | color key1 c => exact h
  | update key1 occupied =>
    simp only [Op.valueStep]
    split_ifs
    · exact stepValue_mono occupied v w h
    · exact h

theorem valueSteps_mono (ops : List Op) (key : OcTreeKey) (v w : ℚ) (h : v ≤ w) :
    valueSteps ops key v ≤ valueSteps ops key w := by
  induction ops generalizing v w with
  | nil => exact h
  | cons op rest ih => exact ih _ _ (valueStep_mono op key v w h)

theorem valueSteps_twice_nonneg_iff (ops : List Op) (key : OcTreeKey) :
    occ_prob_thres_log ≤ valueSteps ops key (valueSteps ops key 0)
      ↔ occ_prob_thres_log ≤ valueSteps ops key 0 := by
  unfold occ_prob_thres_log
  constructor
  · intro h2
    by_contra h1
    have hlt : valueSteps ops key 0 < 0 := lt_of_not_ge h1
    have := valueSteps_mono ops key _ _ (le_of_lt hlt)
    linarith
  · intro h1
    have := valueSteps_mono ops key _ _ h1
    linarith

theorem keys_applyOps_of_present (ops : List Op) (t : OcTree)
    (h : ∀ op ∈ ops, ∀ key, op.updates key = true → key ∈ t.keys) :
    (t.applyOps ops).keys = t.keys := by
  induction ops generalizing t with
  | nil => rfl
  | cons op rest ih =>
    have h1 : (t.applyOp op).keys = t.keys := by
      rw [keys_applyOp]
      cases op with
      | color key c => rfl
      | update key occupied =>
        simp only []
        rw [if_pos (h _ (List.mem_cons_self _ _) key (by simp [Op.updates]))]
    show ((t.applyOp op).applyOps rest).keys = t.keys
    rw [ih (t.applyOp op) (fun op1 hop1 key hk => by
      rw [h1]; exact h op1 (List.mem_cons_of_mem _ hop1) key hk), h1]

theorem mem_keys_applyOps_of_updates (ops : List Op) (t : OcTree) (op : Op) (key : OcTreeKey)
    (hop : op ∈ ops) (hk : op.updates key = true) : key ∈ (t.applyOps ops).keys := by
  unfold OcTree.keys
  rw [mem_keys_iff]
  have := isSome_search_applyOps t ops key
  unfold OcTree.search at this
  rw [this]
  have hany : ops.any (fun op => op.updates key) = true := List.any_eq_true.mpr ⟨op, hop, hk⟩
  simp [hany]

theorem calculateOccupiedVolumeColorOcTree_eq_count_keys (cfg : Config) (t : OcTree)
    (hnodup : t.keys.Nodup) :
    calculateOccupiedVolumeColorOcTree cfg t
      = t.resolution * t.resolution * t.resolution
        * ((t.keys.filter (fun key => decide
            (¬ outOfBand cfg (keyToCoord t.resolution key.k2) ∧ t.isOccupiedAt key))).length
            : ℚ) := by
  rw [calculateOccupiedVolumeColorOcTree_eq_count]
  congr 2
  unfold OcTree.keys
  rw [List.filter_map, List.length_map]
  congr 1
  apply List.filter_congr
  intro leaf hleaf
  rcases leaf with ⟨k, n⟩
  have hs : t.search k = some n := searchLeaves_of_mem t.leaves k n hnodup hleaf
  simp [OcTree.isOccupiedAt, hs]

theorem twice_same_occupancy (ops : List Op) (c0 : OcTree) (hempty : c0.leaves = []) :
    ((c0.applyOps ops).applyOps ops).keys = (c0.applyOps ops).keys
      ∧ ∀ key, ((c0.applyOps ops).applyOps ops).isOccupiedAt key
          ↔ (c0.applyOps ops).isOccupiedAt key := by
  have hkeys := keys_applyOps_of_present ops (c0.applyOps ops)
    (fun op hop key hk => mem_keys_applyOps_of_updates ops c0 op key hop hk)
  refine ⟨hkeys, ?_⟩
  intro key
  have h0 : c0.valueAt key = 0 := by simp [OcTree.valueAt, OcTree.search, hempty, searchLeaves]
  have hs0 : (c0.search key).isSome = false := by simp [OcTree.search, hempty, searchLeaves]
  rw [isOccupiedAt_iff, isOccupiedAt_iff, valueAt_applyOps, valueAt_applyOps, h0,
    isSome_search_applyOps, isSome_search_applyOps, hs0, valueSteps_twice_nonneg_iff]
  simp
theorem volume_eq_of_same_occupancy (cfg : Config) (c1 c2 : OcTree)
    (hres : c2.resolution = c1.resolution) (hn1 : c1.keys.Nodup) (hn2 : c2.keys.Nodup)
    (hkeys : c2.keys = c1.keys) (hocc : ∀ key, c2.isOccupiedAt key ↔ c1.isOccupiedAt key) :
    calculateOccupiedVolumeColorOcTree cfg c2 = calculateOccupiedVolumeColorOcTree cfg c1 := by
  rw [calculateOccupiedVolumeColorOcTree_eq_count_keys cfg c1 hn1,
    calculateOccupiedVolumeColorOcTree_eq_count_keys cfg c2 hn2, hres, hkeys]
  congr 3
  apply List.filter_congr
  intro key _
  simp only [hocc key]

/-- C9 (amended).  Starting from an empty coverage tree, as it is right after
an environment has been loaded, processing a pose a second time leaves the stored
voxels and the occupied or free classification of every voxel as they were after
the first time, and publishes the same covered volume and percentage. -/
theorem pose_twice_same_classification (L : Library) (s s1 s2 : OnlineCoverage) (pose : Pose)
    (out1 out2 : Option Published) (covered : OcTree)
    (hcov : s._covered = some covered) (hempty : covered.leaves = [])
    (h1 : poseCallback L s pose = some (s1, out1))
    (h2 : poseCallback L s1 pose = some (s2, out2)) :
    ∃ c1 c2, s1._covered = some c1 ∧ s2._covered = some c2 ∧ c2.keys = c1.keys
      ∧ (∀ key, c2.isOccupiedAt key ↔ c1.isOccupiedAt key)
      ∧ out2.map Published.volume = out1.map Published.volume
      ∧ out2.map Published.percentage = out1.map Published.percentage := by
  by_cases hloaded : s._octomap_loaded = true
  · cases hmap : s._octomap with
    | none =>
      obtain ⟨hs1, ho1⟩ := poseCallback_of_null_octomap L s s1 covered pose out1 hloaded hmap
        hcov h1
      subst hs1
      obtain ⟨hs2, ho2⟩ := poseCallback_of_null_octomap L s1 s2 covered pose out2 hloaded hmap
        hcov h2
      subst hs2
      exact ⟨covered, covered, hcov, hcov, rfl, fun _ => Iff.rfl, by rw [ho1, ho2],
        by rw [ho1, ho2]⟩
    | some octomap =>
      rw [calculateCoverage_eq_applyOps L s octomap covered pose hloaded hmap hcov] at h1
      simp only [Option.some.injEq, Prod.mk.injEq] at h1
      obtain ⟨hs1, ho1⟩ := h1
      subst hs1
      rw [calculateCoverage_eq_applyOps L
        ⟨s.cfg, s._octomap,
          some (covered.applyOps (poseOps L s.cfg octomap covered.resolution pose)),
          s._octomap_resolution, s._octomap_volume, s._octomap_loaded⟩ octomap
        (covered.applyOps (poseOps L s.cfg octomap covered.resolution pose)) pose
        hloaded hmap rfl] at h2
      simp only [Option.some.injEq, Prod.mk.injEq, applyOps_resolution] at h2
      obtain ⟨hs2, ho2⟩ := h2
      subst hs2
      obtain ⟨hkeys, hocc⟩ :=
        twice_same_occupancy (poseOps L s.cfg octomap covered.resolution pose) covered hempty
      have hn0 : covered.keys.Nodup := by simp [OcTree.keys, hempty]
      have hvol := volume_eq_of_same_occupancy s.cfg
        (covered.applyOps (poseOps L s.cfg octomap covered.resolution pose))
        ((covered.applyOps (poseOps L s.cfg octomap covered.resolution pose)).applyOps
          (poseOps L s.cfg octomap covered.resolution pose))
        (by simp only [applyOps_resolution])
        (nodup_keys_applyOps _ _ hn0)
        (nodup_keys_applyOps _ _ (nodup_keys_applyOps _ _ hn0)) hkeys hocc
      refine ⟨_, _, rfl, rfl, hkeys, hocc, ?_, ?_⟩
      · rw [← ho1, ← ho2]
        simp only [Option.map_some', hvol]
      · rw [← ho1, ← ho2]
        simp only [Option.map_some', hvol]
  · have hl : s._octomap_loaded = false := by simpa using hloaded
    simp only [poseCallback, hl, if_true, Option.some.injEq, Prod.mk.injEq] at h1
    obtain ⟨hs1, ho1⟩ := h1
    subst hs1
    simp only [poseCallback, hl, if_true, Option.some.injEq, Prod.mk.injEq] at h2
    obtain ⟨hs2, ho2⟩ := h2
    subst hs2
    exact ⟨covered, covered, hcov, hcov, rfl, fun _ => Iff.rfl, by rw [← ho1, ← ho2],
      by rw [← ho1, ← ho2]⟩

/-- C9 (witness).  With `exampleMap` just loaded, `poseA` processed once gives
`coveredA` and processed twice gives `coveredAA`: the same voxels with the same
classification, other log-odds, and the same published volume and percentage. -/
theorem pose_twice_same_classification_witness :
    ∃ c1 c2, (exampleWith coveredA)._covered = some c1
      ∧ (exampleWith coveredAA)._covered = some c2 ∧ c2.keys = c1.keys
      ∧ (∀ key, c2.isOccupiedAt key ↔ c1.isOccupiedAt key)
      ∧ (some (⟨coveredAA, 1, FloatVal.finite 100⟩ : Published)).map Published.volume
          = (some (⟨coveredA, 1, FloatVal.finite 100⟩ : Published)).map Published.volume
      ∧ (some (⟨coveredAA, 1, FloatVal.finite 100⟩ : Published)).map Published.percentage
          = (some (⟨coveredA, 1, FloatVal.finite 100⟩ : Published)).map Published.percentage :=
  pose_twice_same_classification exactLibrary exampleLoaded (exampleWith coveredA)
    (exampleWith coveredAA) poseA (some ⟨coveredA, 1, FloatVal.finite 100⟩)
    (some ⟨coveredAA, 1, FloatVal.finite 100⟩) (OcTree.empty 1) (by decide!) rfl (by decide!)
    (by decide!)

/-- C9 (counterexample).  From the coverage tree `coveredAB`, processing
`poseB` once publishes the covered volume `2` and processing it a second time
publishes `1`; the two coverage trees differ, `voxel 2 1` being covered in the
first and free in the second. -/
theorem pose_twice_differs_from_once :
    poseCallbacks exactLibrary exampleLoaded [poseA, poseB] = some (exampleWith coveredAB)
      ∧ ∃ s1 out1 s2 out2,
          poseCallback exactLibrary (exampleWith coveredAB) poseB = some (s1, some out1)
          ∧ poseCallback exactLibrary s1 poseB = some (s2, some out2)
          ∧ s1._covered ≠ s2._covered
          ∧ out1.covered.isOccupiedAt (voxel 2 1) ∧ ¬ out2.covered.isOccupiedAt (voxel 2 1)
          ∧ out1.volume = 2 ∧ out2.volume = 1 := by
  refine ⟨by decide!, _, _, _, _, rfl, rfl, by decide!, by decide!, by decide!, by decide!,
    by decide!⟩

end DroneCoverage
